import Mathlib

/-!
Verification development for the mkv-subtitle-extractor repository.

The TypeScript source is embedded shallowly:
* byte buffers (`Uint8Array`) become `List Nat` (entries 0..255);
* JS numbers used as byte offsets, sizes and counters become `Nat`/`Int`
  (the quantities involved stay well below 2^53, where JS doubles are exact);
* millisecond timestamps (products with `timestampScale / 1e6`) become `ℚ`,
  the exact value of the corresponding real arithmetic;
* functions that `throw` become `Option`/`Except`-valued;
* `reader.read(offset, length)` calls whose results are byte slices of the
  remote file are modelled against an explicit file (`Nat → Nat` plus a size).
-/

namespace MkvExtract

/-- A JS `Uint8Array` viewed as a list of byte values. -/
abbrev Bytes := List Nat

/-- `data[i]` on a `Uint8Array`, in the contexts where a default of 0 is
faithful: the VINT readers bounds-check every index before reading, and the
relative-timestamp reads feed `data[i]` into `<<`/`|`, whose `ToInt32`
coercion turns an out-of-bounds `undefined` into 0. `readUint`, whose `*`/`+`
arithmetic instead propagates `undefined` as NaN, carries an explicit NaN
state and uses `byteAt` only on in-bounds indices. -/
def byteAt (data : Bytes) (i : Nat) : Nat := data.getD i 0

/-! ## VINT codec (src/ebml/vint.ts) -/

/-- Result of reading a VINT (`VintResult` in vint.ts). `value` is `Int`
because `readDataSize` uses -1 as the unknown-size sentinel. -/
structure VintResult where
  value : Int
  length : Nat
deriving Repr, DecidableEq

/-- `vintWidth` from vint.ts: width of a VINT from its first byte. -/
def vintWidth (firstByte : Nat) : Nat :=
  if firstByte &&& 0x80 ≠ 0 then 1
  else if firstByte &&& 0x40 ≠ 0 then 2
  else if firstByte &&& 0x20 ≠ 0 then 3
  else if firstByte &&& 0x10 ≠ 0 then 4
  else if firstByte &&& 0x08 ≠ 0 then 5
  else if firstByte &&& 0x04 ≠ 0 then 6
  else if firstByte &&& 0x02 ≠ 0 then 7
  else if firstByte &&& 0x01 ≠ 0 then 8
  else 1

/-- `readElementId` from vint.ts. Element IDs keep all bits, marker included.
`none` models the thrown errors (offset past end, zero lead byte, short buffer). -/
def readElementId (data : Bytes) (offset : Nat) : Option VintResult :=
  if offset ≥ data.length then none
  else
    let firstByte := byteAt data offset
    if firstByte = 0 then none
    else
      let width := vintWidth firstByte
      if offset + width > data.length then none
      else
        let value := (List.range (width - 1)).foldl
          (fun v i => v * 256 + byteAt data (offset + 1 + i)) firstByte
        some ⟨(value : Int), width⟩

/-- `readDataSize` from vint.ts: marker bit masked out of the first byte;
all-ones value bits give the unknown-size sentinel -1. -/
def readDataSize (data : Bytes) (offset : Nat) : Option VintResult :=
  if offset ≥ data.length then none
  else
    let firstByte := byteAt data offset
    if firstByte = 0 then none
    else
      let width := vintWidth firstByte
      if offset + width > data.length then none
      else
        let mask := (1 <<< (8 - width)) - 1
        let init : Nat × Bool := (firstByte &&& mask, (firstByte &&& mask) = mask)
        let acc := (List.range (width - 1)).foldl
          (fun (p : Nat × Bool) i =>
            let b := byteAt data (offset + 1 + i)
            (p.1 * 256 + b, p.2 && (b = 0xFF))) init
        if acc.2 then some ⟨-1, width⟩ else some ⟨(acc.1 : Int), width⟩

/-- `readTrackNumber` from vint.ts: same masking as `readDataSize`, but with
no all-ones sentinel check. -/
def readTrackNumber (data : Bytes) (offset : Nat) : Option VintResult :=
  if offset ≥ data.length then none
  else
    let firstByte := byteAt data offset
    if firstByte = 0 then none
    else
      let width := vintWidth firstByte
      if offset + width > data.length then none
      else
        let mask := (1 <<< (8 - width)) - 1
        let value := (List.range (width - 1)).foldl
          (fun v i => v * 256 + byteAt data (offset + 1 + i)) (firstByte &&& mask)
        some ⟨(value : Int), width⟩

/-! ## EBML parser (src/ebml/parser.ts) -/

/-- `EbmlElement` from types.ts. -/
structure EbmlElement where
  id : Nat
  dataSize : Int
  headerOffset : Nat
  dataOffset : Nat
  unknownSize : Bool
deriving Repr, DecidableEq

/-- `parseElementHeader` from parser.ts: an element ID followed by a data size. -/
def parseElementHeader (data : Bytes) (offset : Nat) : Option EbmlElement := do
  let id ← readElementId data offset
  let size ← readDataSize data (offset + id.length)
  pure { id := id.value.toNat
         dataSize := size.value
         headerOffset := offset
         dataOffset := offset + id.length + size.length
         unknownSize := size.value = -1 }

/-- `readUint` from parser.ts: big-endian unsigned integer via
`value = value * 256 + data[offset + i]`. An out-of-bounds index yields
`undefined` and the arithmetic turns the running value into NaN for good, so
the result is NaN (`none`) exactly when `length > 0` and the declared range
overruns the buffer; a zero `length` skips the loop and returns 0. -/
def readUint (data : Bytes) (offset length : Nat) : Option Nat :=
  if length = 0 then some 0
  else if offset + length ≤ data.length then
    some ((List.range length).foldl (fun v i => v * 256 + byteAt data (offset + i)) 0)
  else none

/-- Loop body of `iterateChildren` from parser.ts. The `while offset < end`
loop advances `offset` by at least two bytes per step, so `endPos + 1` fuel
(supplied by the wrapper) always suffices. -/
def iterateChildrenGo (data : Bytes) (endPos : Nat) : Nat → Nat → List EbmlElement
  | 0, _ => []
  | fuel + 1, offset =>
    if offset < endPos then
      if offset + 2 > data.length then []
      else
        match parseElementHeader data offset with
        | none => []
        | some el =>
          if el.unknownSize then [el]
          else el :: iterateChildrenGo data endPos fuel (el.dataOffset + el.dataSize.toNat)
    else []

/-- `iterateChildren` from parser.ts: lazy child iteration, materialised as the
finite list of children it yields. -/
def iterateChildren (data : Bytes) (parentDataOffset parentDataSize : Nat) : List EbmlElement :=
  iterateChildrenGo data (parentDataOffset + parentDataSize) (parentDataOffset + parentDataSize + 1) parentDataOffset

/-! ## EBML element IDs (src/ebml/ids.ts) — the ones the block fetcher uses -/

def SIMPLE_BLOCK : Nat := 0xA3
def BLOCK_GROUP : Nat := 0xA0
def BLOCK : Nat := 0xA1
def BLOCK_DURATION : Nat := 0x9B
def BLOCK_ADDITIONS : Nat := 0x75A1
def BLOCK_MORE : Nat := 0xA6
def BLOCK_ADDITIONAL : Nat := 0xA5

/-! ## Block fetcher (src/mkv/clusters.ts) -/

/-- `SubtitleBlock` from types.ts. Timestamps are milliseconds; they are
produced by multiplying raw units with `timestampScale / 1e6`, modelled
exactly in `ℚ`. `durationMs` is a JS `number | undefined`: the outer `none`
is `undefined` (no BlockDuration child), and `some none` is a present NaN
duration (a BlockDuration whose declared size overruns the buffer, read by
`readUint`). -/
structure SubtitleBlock where
  trackNumber : Int
  timestampMs : ℚ
  durationMs : Option (Option ℚ)
  data : Bytes
  additions : Option Bytes
deriving Repr, DecidableEq

/-- The signed 16-bit big-endian relative timestamp read in
`parseSimpleBlock`/`processBlockGroup`:
`(blockData[tsOffset] << 8) | blockData[tsOffset+1]`, then two's-complement
interpretation (`> 32767` means negative). -/
def signedRelTs (blockData : Bytes) (tsOffset : Nat) : Int :=
  let relativeTimestamp := (byteAt blockData tsOffset) <<< 8 ||| byteAt blockData (tsOffset + 1)
  if relativeTimestamp > 32767 then (relativeTimestamp : Int) - 65536 else (relativeTimestamp : Int)

/-- `parseSimpleBlock` from clusters.ts, with the two `reader.read`s collapsed:
`blockData` is the SimpleBlock element's data (the peek buffer is its prefix).
`none` covers both the non-subtitle skip and a track-VINT read failure
(which the source propagates as an exception). -/
def parseSimpleBlock (blockData : Bytes) (clusterTimestamp : Nat)
    (tsMultiplier : ℚ) (subtitleTrackNumbers : List Int) : Option SubtitleBlock :=
  match readTrackNumber blockData 0 with
  | none => none
  | some trackVint =>
    if ¬ subtitleTrackNumbers.contains trackVint.value then none
    else
      let tsOffset := trackVint.length
      let signedRel := signedRelTs blockData tsOffset
      let payloadStart := tsOffset + 3
      let payload := blockData.drop payloadStart
      let absoluteTimestamp := ((clusterTimestamp : ℚ) + (signedRel : ℚ)) * tsMultiplier
      some { trackNumber := trackVint.value
             timestampMs := absoluteTimestamp
             durationMs := none
             data := payload
             additions := none }

/-- `parseBlockAdditions` from clusters.ts. -/
def parseBlockAdditions (data : Bytes) (additionsEl : EbmlElement) : Option Bytes :=
  (iterateChildren data additionsEl.dataOffset additionsEl.dataSize.toNat).findSome?
    (fun blockMore =>
      if blockMore.id ≠ BLOCK_MORE then none
      else
        (iterateChildren data blockMore.dataOffset blockMore.dataSize.toNat).findSome?
          (fun child =>
            if child.id = BLOCK_ADDITIONAL then
              some ((data.drop child.dataOffset).take child.dataSize.toNat)
            else none))

/-- The peek loop at the top of `processBlockGroup`: scan the first
`min 32 groupDataSize` bytes for the inner Block and read its track number.
Returns the `blockTrackNum` variable's final value (-1 when no Block found). -/
def blockGroupPeekTrack (peekBuf : Bytes) : Nat → Nat → Int
  | 0, _ => -1
  | fuel + 1, peekOffset =>
    if peekOffset + 4 < peekBuf.length then
      match parseElementHeader peekBuf peekOffset with
      | none => -1
      | some el =>
        if el.id = BLOCK then
          let blockHeaderStart := el.dataOffset
          if blockHeaderStart < peekBuf.length then
            match readTrackNumber peekBuf blockHeaderStart with
            | some tv => tv.value
            | none => -1
          else -1
        else if el.unknownSize then -1
        else blockGroupPeekTrack peekBuf fuel (el.dataOffset + el.dataSize.toNat)
    else -1

/-- Result of the child scan in `processBlockGroup`: the last Block header,
BlockDuration and BlockAdditions seen. -/
def blockGroupScan (groupData : Bytes) (groupDataSize : Nat) :
    Option EbmlElement × Option (Option Nat) × Option Bytes :=
  (iterateChildren groupData 0 groupDataSize).foldl
    (fun acc child =>
      if child.id = BLOCK then (some child, acc.2.1, acc.2.2)
      else if child.id = BLOCK_DURATION then
        (acc.1, some (readUint groupData child.dataOffset child.dataSize.toNat), acc.2.2)
      else if child.id = BLOCK_ADDITIONS then
        (acc.1, acc.2.1, parseBlockAdditions groupData child)
      else acc)
    (none, none, none)

/-- `processBlockGroup` from clusters.ts, with the reads collapsed:
`groupData` is the BlockGroup element's data, of length `groupDataSize`. -/
def processBlockGroup (groupData : Bytes) (groupDataSize : Nat) (clusterTimestamp : Nat)
    (tsMultiplier : ℚ) (subtitleTrackNumbers : List Int) : List SubtitleBlock :=
  let peekBuf := groupData.take (min 32 groupDataSize)
  let blockTrackNum := blockGroupPeekTrack peekBuf (peekBuf.length + 1) 0
  if blockTrackNum < 0 ∨ ¬ subtitleTrackNumbers.contains blockTrackNum then []
  else
    match blockGroupScan groupData groupDataSize with
    | (none, _, _) => []
    | (some blockElement, blockDuration, additions) =>
      let blockData := (groupData.drop blockElement.dataOffset).take blockElement.dataSize.toNat
      match readTrackNumber blockData 0 with
      | none => []
      | some trackVint =>
        let tsOffset := trackVint.length
        let signedRel := signedRelTs blockData tsOffset
        let payloadStart := tsOffset + 3
        let payload := blockData.drop payloadStart
        let absoluteTimestamp := ((clusterTimestamp : ℚ) + (signedRel : ℚ)) * tsMultiplier
        let durationMs := blockDuration.map (fun d => d.map (fun v : Nat => (v : ℚ) * tsMultiplier))
        [{ trackNumber := trackVint.value
           timestampMs := absoluteTimestamp
           durationMs := durationMs
           data := payload
           additions := additions }]

/-- `parseBlockElement` from clusters.ts (targeted read): the Cue's time (in
ms) is used verbatim as the block timestamp. -/
def parseBlockElement (elementData : Bytes) (el : EbmlElement) (cueTimeMs : ℚ)
    (subtitleTrackNumbers : List Int) (tsMultiplier : ℚ) : Option SubtitleBlock :=
  if el.id = SIMPLE_BLOCK then
    let blockData := (elementData.drop el.dataOffset).take el.dataSize.toNat
    match readTrackNumber blockData 0 with
    | none => none
    | some trackVint =>
      if ¬ subtitleTrackNumbers.contains trackVint.value then none
      else
        let payloadStart := trackVint.length + 3
        some { trackNumber := trackVint.value
               timestampMs := cueTimeMs
               durationMs := none
               data := blockData.drop payloadStart
               additions := none }
  else if el.id = BLOCK_GROUP then
    let scanned := (iterateChildren elementData el.dataOffset el.dataSize.toNat).foldl
      (fun (acc : Option Bytes × Int × Option (Option Nat) × Option Bytes) child =>
        if child.id = BLOCK then
          let raw := (elementData.drop child.dataOffset).take child.dataSize.toNat
          match readTrackNumber raw 0 with
          | none => acc
          | some tv => (some (raw.drop (tv.length + 3)), tv.value, acc.2.2.1, acc.2.2.2)
        else if child.id = BLOCK_DURATION then
          (acc.1, acc.2.1, some (readUint elementData child.dataOffset child.dataSize.toNat), acc.2.2.2)
        else if child.id = BLOCK_ADDITIONS then
          (acc.1, acc.2.1, acc.2.2.1, parseBlockAdditions elementData child)
        else acc)
      (none, 0, none, none)
    match scanned with
    | (none, _, _, _) => none
    | (some blockPayload, trackNum, blockDuration, additions) =>
      if ¬ subtitleTrackNumbers.contains trackNum then none
      else
        some { trackNumber := trackNum
               timestampMs := cueTimeMs
               durationMs := blockDuration.map (fun d => d.map (fun v : Nat => (v : ℚ) * tsMultiplier))
               data := blockPayload
               additions := additions }
  else none

/-! ## Adaptive batching (src/mkv/clusters.ts) -/

def HEADER_READ_SIZE : Nat := 16
def MAX_BATCH_GAP : Nat := 2 * 1024 * 1024
def BLOCK_SIZE_ESTIMATE : Nat := 4096
def READ_AHEAD : Nat := 32 * 1024

/-- `BlockTarget` from clusters.ts (the Cue entry is reduced to its time,
the only field the batch logic reads from it). -/
structure BlockTarget where
  absPos : Nat
  time : Nat
deriving Repr, DecidableEq

/-- A stable sort with JS `Array.prototype.sort` semantics for a consistent
comparator: `le a b` models `comparator(a, b) <= 0` and an element arriving
later is inserted after every earlier element it compares `le` with. -/
def stableInsert (le : α → α → Bool) (a : α) : List α → List α
  | [] => [a]
  | b :: bs => if le b a then b :: stableInsert le a bs else a :: b :: bs

/-- JS stable sort of a list by comparator `le` (= "compare ≤ 0"). -/
def jsSortBy (le : α → α → Bool) (l : List α) : List α :=
  l.foldl (fun acc a => stableInsert le a acc) []

/-- The gap list built in `computeBatchThreshold`:
`targets[i].absPos - targets[i-1].absPos` for `i = 1..`. -/
def consecutiveGaps (targets : List BlockTarget) : List Int :=
  (targets.zip targets.tail).map (fun p => (p.2.absPos : Int) - (p.1.absPos : Int))

/-- `computeBatchThreshold` from clusters.ts. -/
def computeBatchThreshold (targets : List BlockTarget) : Int :=
  if targets.length < 2 then 0
  else
    let gaps := jsSortBy (fun a b => a ≤ b) (consecutiveGaps targets)
    let medianGap := gaps.getD (gaps.length / 2) 0
    if medianGap < (MAX_BATCH_GAP : Int) then
      min (max (medianGap * 2) (READ_AHEAD : Int)) (MAX_BATCH_GAP : Int)
    else 128 * 1024

/-- Loop of `groupIntoBatches`. -/
def groupIntoBatchesGo (threshold : Int) (prev : BlockTarget)
    (current : List BlockTarget) (acc : List (List BlockTarget)) :
    List BlockTarget → List (List BlockTarget)
  | [] => acc ++ [current]
  | t :: rest =>
    if (t.absPos : Int) - (prev.absPos : Int) ≤ threshold then
      groupIntoBatchesGo threshold t (current ++ [t]) acc rest
    else
      groupIntoBatchesGo threshold t [t] (acc ++ [current]) rest

/-- `groupIntoBatches` from clusters.ts (only called with nonempty `targets`). -/
def groupIntoBatches (targets : List BlockTarget) (threshold : Int) : List (List BlockTarget) :=
  match targets with
  | [] => []
  | t :: rest => groupIntoBatchesGo threshold t [t] [] rest

/-- `reader.read(start, len)` against the remote file under the honest-server
model: the returned bytes are `file[start .. min (start+len) fileLen)`. -/
def sliceBytes (file : Nat → Nat) (fileLen start len : Nat) : Bytes :=
  (List.range (min len (fileLen - start))).map (fun i => file (start + i))

/-- The follow-up reads `processBatch` makes beyond its single batch read: one
per target whose element header parses but whose declared end lies past the
batch buffer. Mirrors the `for (const target of batch)` loop in
`readTargetedBlocks`. -/
def processBatchExtraReads (batchData : Bytes) (readStart : Nat) (batch : List BlockTarget) : Nat :=
  batch.foldl
    (fun n target =>
      let localOffset := target.absPos - readStart
      let remaining := (batchData.length : Int) - (localOffset : Int)
      if remaining < (HEADER_READ_SIZE : Int) then n
      else
        match parseElementHeader batchData localOffset with
        | none => n
        | some headerEl =>
          let elementEnd := (headerEl.dataOffset : Int) + headerEl.dataSize
          if elementEnd ≤ (batchData.length : Int) then n else n + 1)
    0

/-- Total `reader.read` calls the sequential direct-target loop issues for a
batch list: one batch read per batch plus the overflow follow-ups. -/
def directFetchReadCount (file : Nat → Nat) (fileLen : Nat)
    (batches : List (List BlockTarget)) : Nat :=
  batches.foldl
    (fun n batch =>
      match batch with
      | [] => n + 1
      | t0 :: _ =>
        let readStart := t0.absPos
        let readEnd := (batch.getLastD t0).absPos + BLOCK_SIZE_ESTIMATE
        let batchData := sliceBytes file fileLen readStart (readEnd - readStart)
        n + 1 + processBatchExtraReads batchData readStart batch)
    0

/-! ## Range reader (src/io/range-reader.ts)

The reader's interaction with HTTP is modelled explicitly: a response is a
status, an optional total size parsed from `Content-Range`, and a body. The
orchestrator's reads are issued against an honest server that serves slices
of a fixed remote file. -/

/-- An HTTP response as the reader consumes it: status, total size parsed
from a well-formed `Content-Range: bytes a-b/N` header (`none` when the
header is absent or unparseable), and the body bytes. -/
structure HttpResponse where
  status : Nat
  contentRangeTotal : Option Nat
  body : Bytes
deriving Repr, DecidableEq

/-- The mutable fields of `RangeReader`. `cacheOffset` starts at -1 as in the
source. -/
structure RangeReaderState where
  url : String
  allowFullDownload : Bool
  fileSize : Nat
  fullBuffer : Option Bytes
  cacheOffset : Int
  cacheBuffer : Option Bytes
  bytesDownloaded : Nat
  requestCount : Nat
deriving Repr, DecidableEq

/-- The state after the constructor ran. -/
def initialState (url : String) (allowFullDownload : Bool) : RangeReaderState :=
  { url := url, allowFullDownload := allowFullDownload, fileSize := 0,
    fullBuffer := none, cacheOffset := -1, cacheBuffer := none,
    bytesDownloaded := 0, requestCount := 0 }

/-- The errors `init` can throw. `RangeNotSupportedError` carries the URL
verbatim (errors.ts builds the message from it). -/
inductive InitError where
  | rangeNotSupported (url : String)
deriving Repr, DecidableEq

/-- `RangeReader.init` from range-reader.ts. `probe` is the response to the
initial `Range: bytes=0-262143` request; `fallbackResponse` is the response
to the plain second request issued on the full-download path when the probe
status was not 200. -/
def init (s0 : RangeReaderState) (probe : HttpResponse)
    (fallbackResponse : HttpResponse) : Except InitError RangeReaderState :=
  let s := { s0 with requestCount := s0.requestCount + 1 }
  if probe.status = 206 then
    let fileSize := match probe.contentRangeTotal with
      | some n => n
      | none => s.fileSize
    Except.ok { s with fileSize := fileSize,
                       bytesDownloaded := s.bytesDownloaded + probe.body.length,
                       cacheOffset := 0,
                       cacheBuffer := some probe.body }
  else if s.allowFullDownload = false then
    Except.error (InitError.rangeNotSupported s.url)
  else
    let (s1, full) :=
      if probe.status = 200 then (s, probe)
      else ({ s with requestCount := s.requestCount + 1 }, fallbackResponse)
    Except.ok { s1 with fullBuffer := some full.body,
                        fileSize := full.body.length,
                        bytesDownloaded := full.body.length }

/-- The cache-hit test in `RangeReader.read`:
`cacheBuffer && cacheOffset >= 0 && offset >= cacheOffset && offset + length
<= cacheOffset + cacheBuffer.length`. -/
def cacheHit (s : RangeReaderState) (offset length : Nat) : Bool :=
  match s.cacheBuffer with
  | some cb =>
    decide (0 ≤ s.cacheOffset) && decide ((offset : Int) ≥ s.cacheOffset) &&
      decide ((offset : Int) + (length : Int) ≤ s.cacheOffset + (cb.length : Int))
  | none => false

/-- `Math.max(length, READ_AHEAD_SIZE)` in the miss path. -/
def readAheadLength (length : Nat) : Nat := max length READ_AHEAD

/-- `Math.min(offset + readAheadLength - 1, fileSize - 1)`: the inclusive end
of the requested range (a JS number, possibly -1 on an empty file). -/
def readEndB (s : RangeReaderState) (offset length : Nat) : Int :=
  min ((offset : Int) + (readAheadLength length : Int) - 1) ((s.fileSize : Int) - 1)

/-- `RangeReader.read` from range-reader.ts. `server start endB` is the
response to `Range: bytes=start-endB`. On a non-206/200 response the source
throws (`Except.error` with the offending range). -/
def read (server : Nat → Int → HttpResponse) (s : RangeReaderState)
    (offset length : Nat) : Except (Nat × Int) (RangeReaderState × Bytes) :=
  match s.fullBuffer with
  | some buf => Except.ok (s, (buf.drop offset).take length)
  | none =>
    if cacheHit s offset length then
      match s.cacheBuffer with
      | some cb =>
        Except.ok (s, (cb.drop ((offset : Int) - s.cacheOffset).toNat).take length)
      | none => Except.error (offset, 0)
    else
      if (server offset (readEndB s offset length)).status ≠ 206 ∧
          (server offset (readEndB s offset length)).status ≠ 200 then
        Except.error (offset, readEndB s offset length)
      else
        Except.ok
          ({ s with requestCount := s.requestCount + 1,
                    bytesDownloaded :=
                      s.bytesDownloaded + (server offset (readEndB s offset length)).body.length,
                    cacheOffset := (offset : Int),
                    cacheBuffer := some (server offset (readEndB s offset length)).body },
           (server offset (readEndB s offset length)).body.take
             (min length (server offset (readEndB s offset length)).body.length))

/-- A server that honestly serves `Range: bytes=start-endB` slices of a fixed
file of `fileLen` bytes with status 206. -/
def honestServer (file : Nat → Nat) (fileLen : Nat) (start : Nat) (endB : Int) : HttpResponse :=
  { status := 206, contentRangeTotal := some fileLen,
    body := sliceBytes file fileLen start ((endB + 1 - (start : Int)).toNat) }

/-- Fold a list of `(offset, length)` reads through the reader, stopping the
state at the first error (the extraction aborts there). -/
def runReads (server : Nat → Int → HttpResponse) (s : RangeReaderState)
    (ops : List (Nat × Nat)) : RangeReaderState :=
  ops.foldl
    (fun st p =>
      match read server st p.1 p.2 with
      | Except.ok (st', _) => st'
      | Except.error _ => st)
    s

/-! ## Worker pool (`mapConcurrent` in clusters.ts)

Workers share the reader. A step atomically claims one read of one worker's
script and executes it against the shared reader state; the scheduler (the
host's event loop) is free to interleave workers arbitrarily, which the step
relation models as nondeterministic worker choice. -/

/-- Shared state of the worker pool: the reader plus, per worker, how many of
its reads have executed and the values they returned. -/
structure PoolState where
  reader : RangeReaderState
  pcs : List Nat
  logs : List (List Bytes)
deriving Repr, DecidableEq

/-- One scheduler step: worker `w` executes its next scripted read against
the shared reader. `tasks` gives each worker's `(offset, length)` read script. -/
inductive PoolStep (file : Nat → Nat) (tasks : List (List (Nat × Nat))) :
    PoolState → PoolState → Prop where
  | step (w : Nat) (s : PoolState) (op : Nat × Nat) (r' : RangeReaderState) (v : Bytes)
      (hw : w < tasks.length)
      (hpc : (tasks.getD w []).getD (s.pcs.getD w 0) (0, 0) = op)
      (hlt : s.pcs.getD w 0 < (tasks.getD w []).length)
      (hread : read (honestServer file s.reader.fileSize) s.reader op.1 op.2 =
        Except.ok (r', v)) :
      PoolStep file tasks s
        { reader := r',
          pcs := s.pcs.set w (s.pcs.getD w 0 + 1),
          logs := s.logs.set w (s.logs.getD w [] ++ [v]) }

/-- Reachability under any interleaving. -/
def PoolReaches (file : Nat → Nat) (tasks : List (List (Nat × Nat))) :
    PoolState → PoolState → Prop :=
  Relation.ReflTransGen (PoolStep file tasks)

/-- A pool state in which every worker has finished its script. -/
def PoolDone (tasks : List (List (Nat × Nat))) (s : PoolState) : Prop :=
  ∀ w, w < tasks.length → s.pcs.getD w 0 = (tasks.getD w []).length

/-- The reader cache is valid for `file`: no full buffer, and the cache line
is a slice of the file lying inside it. Established by an honest 206 `init`
and preserved by every read. -/
def CacheValid (file : Nat → Nat) (s : RangeReaderState) : Prop :=
  s.fullBuffer = none ∧
  ∀ cb, s.cacheBuffer = some cb →
    0 ≤ s.cacheOffset ∧
    cb = sliceBytes file s.fileSize s.cacheOffset.toNat cb.length

/-- The initial pool state: fresh per-worker counters and logs. -/
def poolStart (reader : RangeReaderState) (n : Nat) : PoolState :=
  { reader := reader, pcs := List.replicate n 0, logs := List.replicate n [] }

/-! ## JS string primitives

The assemblers work on decoded text. JS semantics are modelled on the
character ranges the subtitle pipeline manipulates: `toLowerCase` as ASCII
lowering, whitespace as the ASCII whitespace characters, and `TextDecoder`
as the identity on code points (exact for ASCII payloads; multi-byte UTF-8
sequences are outside the model). -/

/-- `decodeUtf8` from util.ts, restricted to single-byte code points. -/
def decodeUtf8 (data : Bytes) : String := ⟨data.map Char.ofNat⟩

/-- ASCII case lowering; agrees with JS `toLowerCase` on the ASCII range. -/
def asciiLower (c : Char) : Char :=
  if 'A' ≤ c ∧ c ≤ 'Z' then Char.ofNat (c.toNat + 32) else c

/-- JS `String.prototype.toLowerCase` (ASCII range). -/
def toLowerCase (s : String) : String := ⟨s.data.map asciiLower⟩

/-- The ASCII members of JS `\s` (WhiteSpace / LineTerminator). -/
def isJsSpace (c : Char) : Bool :=
  c = ' ' ∨ c = '\t' ∨ c = '\n' ∨ c = '\r' ∨ c = '\x0b' ∨ c = '\x0c'

/-- JS `String.prototype.trimEnd`. -/
def jsTrimEnd (s : String) : String := ⟨(s.data.reverse.dropWhile isJsSpace).reverse⟩

/-- JS `String.prototype.includes`. -/
def containsSub (hay needle : String) : Bool :=
  (List.range (hay.data.length + 1)).any (fun i => needle.data.isPrefixOf (hay.data.drop i))

/-- JS `String.prototype.padStart`. -/
def padStart (s : String) (n : Nat) (c : Char) : String :=
  if s.data.length < n then String.mk (List.replicate (n - s.data.length) c) ++ s else s

def digitChar (d : Nat) : Char := Char.ofNat (48 + d)

def isDigitChar (c : Char) : Bool := decide (48 ≤ c.toNat) && decide (c.toNat ≤ 57)

/-- Decimal digits of `n`, most significant first; `fuel ≥ n + 1` suffices. -/
def natDigitsGo (fuel : Nat) (n : Nat) : List Char :=
  match fuel with
  | 0 => []
  | fuel + 1 =>
    if n < 10 then [digitChar n]
    else natDigitsGo fuel (n / 10) ++ [digitChar (n % 10)]

def natDigits (n : Nat) : List Char := natDigitsGo (n + 1) n

/-- JS `String(n)` for an integer-valued number. -/
def intToStr (n : Int) : String :=
  if n < 0 then String.mk ('-' :: natDigits n.natAbs) else String.mk (natDigits n.toNat)

/-- Numeric value of a digit-character list, most significant first. -/
def digitsVal (ds : List Char) : Nat :=
  ds.foldl (fun a c => a * 10 + (c.toNat - 48)) 0

/-- The digit-prefix part of JS `parseInt`: the longest digit prefix, or
`NaN` (`none`) when it is empty. -/
def jsParseIntDigits (cs : List Char) : Option Int :=
  if (cs.takeWhile isDigitChar).isEmpty then none
  else some ((digitsVal (cs.takeWhile isDigitChar) : Nat) : Int)

/-- JS `parseInt(s, 10)`: skip whitespace, optional sign, longest digit
prefix; `none` models `NaN`. -/
def jsParseInt (s : String) : Option Int :=
  match s.data.dropWhile isJsSpace with
  | [] => none
  | c :: rest =>
    if c = '-' then (jsParseIntDigits rest).map (fun v => -v)
    else if c = '+' then jsParseIntDigits rest
    else jsParseIntDigits (c :: rest)

/-- JS `Math.round` on an exact rational: `⌊x + 1/2⌋`. -/
def jsRound (q : ℚ) : Int := ⌊q + 1 / 2⌋

/-! ## ASS assembler (src/subtitle/ass.ts) -/

/-- The record `parseAssBlockPayload` returns. `readOrder` is
`parseInt(parts[0], 10)`; `none` models `NaN`. -/
structure AssFields where
  readOrder : Option Int
  layer : String
  style : String
  name : String
  marginL : String
  marginR : String
  marginV : String
  effect : String
  dialogueText : String
deriving Repr, DecidableEq

/-- `text.indexOf(',', start)` + the two substrings around it:
`some (before, after)` when a comma exists. -/
def splitAtComma : List Char → Option (List Char × List Char)
  | [] => none
  | c :: cs =>
    if c = ',' then some ([], cs)
    else (splitAtComma cs).map (fun p => (c :: p.1, p.2))

/-- The `for (let i = 0; i < 8; i++)` split loop of `parseAssBlockPayload`,
generalised to `n` commas: the parts before each of the first `n` commas and
the remainder. `none` when fewer than `n` commas exist. -/
def splitFirstCommas : Nat → List Char → Option (List (List Char) × List Char)
  | 0, cs => some ([], cs)
  | n + 1, cs =>
    match splitAtComma cs with
    | none => none
    | some (before, after) =>
      (splitFirstCommas n after).map (fun p => (before :: p.1, p.2))

/-- Comma-interleaving of parts before a remainder: the exact shape of input
that `splitFirstCommas` inverts. -/
def joinWithComma : List (List Char) → List Char → List Char
  | [], rest => rest
  | p :: ps, rest => p ++ ',' :: joinWithComma ps rest

/-- `parseAssBlockPayload` from ass.ts. -/
def parseAssBlockPayload (text : String) : Option AssFields :=
  match splitFirstCommas 8 text.data with
  | some ([p0, p1, p2, p3, p4, p5, p6, p7], rest) =>
    some { readOrder := jsParseInt (String.mk p0)
           layer := String.mk p1
           style := String.mk p2
           name := String.mk p3
           marginL := String.mk p4
           marginR := String.mk p5
           marginV := String.mk p6
           effect := String.mk p7
           dialogueText := String.mk rest }
  | _ => none

/-- `formatAssTimestamp` from ass.ts: `H:MM:SS.cc`, hours not zero-padded.
`Math.floor` is `Int.fdiv`, the JS `%` is `Int.tmod`. -/
def formatAssTimestamp (ms : ℚ) : String :=
  let totalCs := jsRound (ms / 10)
  let hours := Int.fdiv totalCs 360000
  let minutes := Int.fdiv (Int.tmod totalCs 360000) 6000
  let seconds := Int.fdiv (Int.tmod totalCs 6000) 100
  let centis := Int.tmod totalCs 100
  intToStr hours ++ ":" ++ padStart (intToStr minutes) 2 '0' ++ ":" ++
    padStart (intToStr seconds) 2 '0' ++ "." ++ padStart (intToStr centis) 2 '0'

/-- `formatAssTimestamp` on the possibly-NaN end time
`timestampMs + (durationMs ?? 0)` (`none` = NaN): on NaN, `Math.round`, the
divisions and `%` all return NaN, `String(NaN)` is the 3-character `"NaN"`,
and `padStart(2, '0')` leaves it unchanged. -/
def formatAssTimestampJs : Option ℚ → String
  | none => "NaN:NaN:NaN.NaN"
  | some q => formatAssTimestamp q

/-- The end-time number fed to the formatters:
`block.timestampMs + (block.durationMs ?? 0)`. `??` replaces only
`undefined`, so a NaN duration (`some none`) makes the sum NaN (`none`). -/
def endTimeMs (b : SubtitleBlock) : Option ℚ :=
  (b.durationMs.getD (some 0)).map (fun d => b.timestampMs + d)

/-- The `Dialogue:` template string in `assembleAss`. -/
def dialogueLine (parsed : AssFields) (startT endT lineEnding : String) : String :=
  "Dialogue: " ++ parsed.layer ++ "," ++ startT ++ "," ++ endT ++ "," ++
    parsed.style ++ "," ++ parsed.name ++ "," ++ parsed.marginL ++ "," ++
    parsed.marginR ++ "," ++ parsed.marginV ++ "," ++ parsed.effect ++ "," ++
    parsed.dialogueText ++ lineEnding

/-- `SubtitleTrackInfo` from types.ts. -/
structure SubtitleTrackInfo where
  trackNumber : Nat
  codecId : String
  codecPrivate : Option Bytes
  language : Option String
  trackName : Option String
  defaultDuration : Option Nat
deriving Repr, DecidableEq

/-- The `parsedBlocks` list in `assembleAss`: blocks whose payload parses,
in input order. -/
def assParsedBlocks (blocks : List SubtitleBlock) : List (AssFields × SubtitleBlock) :=
  blocks.filterMap (fun b => (parseAssBlockPayload (decodeUtf8 b.data)).map (fun p => (p, b)))

/-- The sort comparator `a.parsed.readOrder - b.parsed.readOrder`, as the
"keep order" relation `compare ≤ 0`; a `NaN` comparator result is treated as
0 by JS sort, i.e. no reordering, which `true` models. -/
def readOrderLe (a b : Option Int) : Bool :=
  match a, b with
  | some x, some y => x ≤ y
  | _, _ => true

/-- `parsedBlocks.sort((a, b) => a.parsed.readOrder - b.parsed.readOrder)`. -/
def assSortedBlocks (blocks : List SubtitleBlock) : List (AssFields × SubtitleBlock) :=
  jsSortBy (fun a b => readOrderLe a.1.readOrder b.1.readOrder) (assParsedBlocks blocks)

/-- `assembleAss` from ass.ts (output as text; the source UTF-8 encodes it). -/
def assembleAss (track : SubtitleTrackInfo) (blocks : List SubtitleBlock) : String :=
  let header := match track.codecPrivate with
    | some b => decodeUtf8 b
    | none => ""
  let lineEnding := if containsSub header "\r\n" then "\r\n" else "\n"
  let hasEvents := containsSub header "[Events]"
  let sorted := assSortedBlocks blocks
  let headerPart :=
    if hasEvents then jsTrimEnd header ++ lineEnding
    else
      jsTrimEnd header ++ lineEnding ++ lineEnding ++ "[Events]" ++ lineEnding ++
        "Format: Layer, Start, End, Style, Name, MarginL, MarginR, MarginV, Effect, Text" ++ lineEnding
  let dialogues := sorted.map (fun pb =>
    dialogueLine pb.1 (formatAssTimestamp pb.2.timestampMs)
      (formatAssTimestampJs (endTimeMs pb.2)) lineEnding)
  headerPart ++ String.join dialogues ++ lineEnding

/-! ## SRT assembler (src/subtitle/srt.ts) -/

/-- `formatSrtTimestamp` from srt.ts: `HH:MM:SS,mmm`. -/
def formatSrtTimestamp (ms : ℚ) : String :=
  let totalMs := jsRound ms
  let hours := Int.fdiv totalMs 3600000
  let minutes := Int.fdiv (Int.tmod totalMs 3600000) 60000
  let seconds := Int.fdiv (Int.tmod totalMs 60000) 1000
  let millis := Int.tmod totalMs 1000
  padStart (intToStr hours) 2 '0' ++ ":" ++ padStart (intToStr minutes) 2 '0' ++ ":" ++
    padStart (intToStr seconds) 2 '0' ++ "," ++ padStart (intToStr millis) 3 '0'

/-- `formatSrtTimestamp` on the possibly-NaN end time (`none` = NaN);
`padStart(3, '0')` also leaves the 3-character `"NaN"` unchanged. -/
def formatSrtTimestampJs : Option ℚ → String
  | none => "NaN:NaN:NaN,NaN"
  | some q => formatSrtTimestamp q

/-- `[...blocks].sort((a, b) => a.timestampMs - b.timestampMs)` in
`assembleSrt`. -/
def srtSorted (blocks : List SubtitleBlock) : List SubtitleBlock :=
  jsSortBy (fun a b => a.timestampMs ≤ b.timestampMs) blocks

/-- `assembleSrt` from srt.ts (output as text). -/
def assembleSrt (blocks : List SubtitleBlock) : String :=
  let sorted := srtSorted blocks
  let lines := sorted.enum.foldr
    (fun (p : Nat × SubtitleBlock) acc =>
      intToStr ((p.1 : Int) + 1) ::
        (formatSrtTimestamp p.2.timestampMs ++ " --> " ++
          formatSrtTimestampJs (endTimeMs p.2)) ::
        decodeUtf8 p.2.data :: "" :: acc)
    []
  String.intercalate "\n" lines

/-! ## Font detection (src/mkv/attachments.ts) -/

def FONT_MIME_TYPES : List String :=
  ["font/ttf", "font/otf", "font/woff", "font/woff2", "font/sfnt",
   "application/font-ttf", "application/font-otf", "application/font-woff",
   "application/font-woff2", "application/x-truetype-font",
   "application/vnd.ms-opentype", "application/font-sfnt",
   "application/x-font-ttf", "application/x-font-otf"]

def FONT_EXTENSIONS : List String := [".ttf", ".otf", ".woff", ".woff2"]

/-- `fileName.match(/\.[^.]+$/)?.[0]` on an already-lowercased name: the last
dot together with the nonempty dot-free suffix after it, when both exist. -/
def lastExtMatch (lowerName : String) : Option String :=
  let cs := lowerName.data
  let tail := cs.reverse.takeWhile (fun c => c ≠ '.')
  if tail.length ≠ 0 ∧ tail.length < cs.length then some (String.mk ('.' :: tail.reverse))
  else none

/-- `isFontFile` from attachments.ts. -/
def isFontFile (mimeType fileName : String) : Bool :=
  if FONT_MIME_TYPES.contains (toLowerCase mimeType) then true
  else
    match lastExtMatch (toLowerCase fileName) with
    | some ext => FONT_EXTENSIONS.contains ext
    | none => false

/-! ## Language filter (step 5 of `extractSubtitles` in index.ts) -/

/-- The `if (options?.languages?.length)` filter: applied only when a
`languages` array was passed and its length is a truthy number. -/
def filterByLanguages (languages : Option (List String))
    (tracks : List SubtitleTrackInfo) : List SubtitleTrackInfo :=
  match languages with
  | some ls =>
    if ls.length ≠ 0 then
      let langs := ls.map toLowerCase
      tracks.filter (fun t =>
        match t.language with
        | some lg => langs.contains (toLowerCase lg)
        | none => false)
    else tracks
  | none => tracks

/-! ## Spec-side definitions

These follow the specification's wording (not the source) and exist only to
be compared with the source-derived definitions above. -/

/-- Spec: "threshold = clamp(2·G, 32 KiB, 2 MiB)". -/
def clamp (x lo hi : Int) : Int := max lo (min x hi)

/-- Spec: "the median of the sorted gaps between consecutive direct-target
file positions" (the element the source selects at index `⌊n/2⌋`). -/
def specMedianGap (targets : List BlockTarget) : Int :=
  let sortedGaps := jsSortBy (fun a b => a ≤ b) (consecutiveGaps targets)
  sortedGaps.getD (sortedGaps.length / 2) 0

/-- Spec: "when the median gap G is below 2 MiB the threshold equals
clamp(2·G, 32 KiB, 2 MiB), otherwise 128 KiB". -/
def specBatchThreshold (targets : List BlockTarget) : Int :=
  let g := specMedianGap targets
  if g < 2 * 1024 * 1024 then clamp (2 * g) (32 * 1024) (2 * 1024 * 1024)
  else 128 * 1024

/-- Spec: "the last extension of its file name": the substring from the last
dot onward, when the name contains a dot. -/
def specLastExtension (lowerName : String) : Option String :=
  if lowerName.data.contains '.' then
    some (String.mk ('.' :: (lowerName.data.reverse.takeWhile (fun c => c ≠ '.')).reverse))
  else none

/-- Spec: a file is a font iff its lowercased MIME is in the closed MIME set
or its lowercased last extension is one of `.ttf .otf .woff .woff2`. -/
def specIsFontFile (mimeType fileName : String) : Bool :=
  FONT_MIME_TYPES.contains (toLowerCase mimeType) ||
    (match specLastExtension (toLowerCase fileName) with
     | some ext => FONT_EXTENSIONS.contains ext
     | none => false)

/-- Spec: "strictly increasing ReadOrder" between consecutive Dialogue
lines (`NaN` compares as neither). -/
def readOrderLt (a b : Option Int) : Bool :=
  match a, b with
  | some x, some y => x < y
  | _, _ => false

/-- The nine parsed ASS fields re-joined in payload order
(`ReadOrder,Layer,Style,Name,MarginL,MarginR,MarginV,Effect,Text`), with
ReadOrder rendered canonically. -/
def serializeAssFields (f : AssFields) (n : Int) : String :=
  intToStr n ++ "," ++ f.layer ++ "," ++ f.style ++ "," ++ f.name ++ "," ++
    f.marginL ++ "," ++ f.marginR ++ "," ++ f.marginV ++ "," ++ f.effect ++ "," ++
    f.dialogueText

/-! # Theorems -/

/-! ## Helper lemmas -/

/-- A fold over a pair whose components evolve independently projects to the
fold of the first component. -/
theorem foldl_pair_fst (f : Nat → Nat → Nat) (g : Bool → Nat → Bool)
    (l : List Nat) (init : Nat × Bool) :
    (l.foldl (fun p i => (f p.1 i, g p.2 i)) init).1 = l.foldl f init.1 := by
  induction l generalizing init with
  | nil => rfl
  | cons a t ih => simpa using ih (f init.1 a, g init.2 a)

/-- Success equation for `parseSimpleBlock`: a known track VINT on a
subtitle track yields the block record. -/
theorem parseSimpleBlock_eq_some (blockData : Bytes) (ct : Nat) (mult : ℚ)
    (tracks : List Int) (tv : VintResult)
    (htv : readTrackNumber blockData 0 = some tv)
    (hmem : tracks.contains tv.value = true) :
    parseSimpleBlock blockData ct mult tracks =
      some { trackNumber := tv.value
             timestampMs := ((ct : ℚ) + (signedRelTs blockData tv.length : ℚ)) * mult
             durationMs := none
             data := blockData.drop (tv.length + 3)
             additions := none } := by
  unfold parseSimpleBlock
  rw [htv]
  show (if ¬ tracks.contains tv.value = true then none else _) = _
  rw [if_neg (not_not_intro hmem)]

/-- Failure equation for `parseSimpleBlock`: a non-subtitle track is skipped. -/
theorem parseSimpleBlock_eq_none (blockData : Bytes) (ct : Nat) (mult : ℚ)
    (tracks : List Int) (tv : VintResult)
    (htv : readTrackNumber blockData 0 = some tv)
    (hmem : tracks.contains tv.value = false) :
    parseSimpleBlock blockData ct mult tracks = none := by
  unfold parseSimpleBlock
  rw [htv]
  show (if ¬ tracks.contains tv.value = true then none else _) = _
  rw [if_pos (by rw [hmem]; decide)]

/-- The regex's `[^.]+` run stops strictly early exactly when some character
fails the predicate. -/
theorem takeWhile_length_lt_iff (p : Char → Bool) (l : List Char) :
    (l.takeWhile p).length < l.length ↔ ∃ c ∈ l, ¬ p c := by
  constructor
  · intro h
    by_contra hc
    push_neg at hc
    rw [List.takeWhile_eq_self_iff.mpr ?_] at h
    · exact lt_irrefl _ h
    · intro x hx
      simpa using hc x hx
  · rintro ⟨c, hcl, hpc⟩
    rcases lt_or_eq_of_le (List.IsPrefix.length_le (List.takeWhile_prefix p)) with h | h
    · exact h
    · exfalso
      have heq := (List.takeWhile_prefix p (l := l)).eq_of_length h
      exact hpc (List.takeWhile_eq_self_iff.mp heq c hcl)

/-- A list of zeroes reads zero at every index (in or out of bounds). -/
theorem getD_zero_of_all_zero (l : List Nat) (hz : ∀ x ∈ l, x = 0) (i : Nat) :
    l.getD i 0 = 0 := by
  induction l generalizing i with
  | nil => rfl
  | cons a t ih =>
    cases i with
    | zero => simpa using hz a (by simp)
    | succ j =>
      rw [List.getD_cons_succ]
      exact ih (fun x hx => hz x (by simp [hx])) j

/-- Every entry of an all-zero file slice is zero. -/
theorem byteAt_sliceBytes_zero (fileLen start len i : Nat) :
    byteAt (sliceBytes (fun _ => 0) fileLen start len) i = 0 := by
  unfold byteAt sliceBytes
  apply getD_zero_of_all_zero
  intro x hx
  obtain ⟨j, -, rfl⟩ := List.mem_map.mp hx
  rfl

/-- `readElementId` fails on an all-zero buffer (zero lead byte). -/
theorem readElementId_zero (data : Bytes) (hz : ∀ i, byteAt data i = 0) (offset : Nat) :
    readElementId data offset = none := by
  simp only [readElementId]
  by_cases h1 : offset ≥ data.length
  · rw [if_pos h1]
  · rw [if_neg h1, if_pos (hz offset)]

/-- `parseElementHeader` fails on an all-zero buffer. -/
theorem parseElementHeader_zero (data : Bytes) (hz : ∀ i, byteAt data i = 0) (offset : Nat) :
    parseElementHeader data offset = none := by
  simp [parseElementHeader, readElementId_zero data hz offset, Option.bind]

/-- On an all-zero batch buffer no element header parses, so `processBatch`
issues no follow-up reads. -/
theorem processBatchExtraReads_zero (batchData : Bytes)
    (hz : ∀ i, byteAt batchData i = 0) (readStart : Nat) (batch : List BlockTarget) :
    processBatchExtraReads batchData readStart batch = 0 := by
  unfold processBatchExtraReads
  suffices h : ∀ n, batch.foldl
      (fun n target =>
        let localOffset := target.absPos - readStart
        let remaining := (batchData.length : Int) - (localOffset : Int)
        if remaining < (HEADER_READ_SIZE : Int) then n
        else
          match parseElementHeader batchData localOffset with
          | none => n
          | some headerEl =>
            let elementEnd := (headerEl.dataOffset : Int) + headerEl.dataSize
            if elementEnd ≤ (batchData.length : Int) then n else n + 1) n = n by
    exact h 0
  intro n
  induction batch generalizing n with
  | nil => rfl
  | cons t rest ih =>
    rw [List.foldl_cons]
    have hstep :
        (if (batchData.length : Int) - ((t.absPos - readStart : Nat) : Int) <
            (HEADER_READ_SIZE : Int) then n
         else
          match parseElementHeader batchData (t.absPos - readStart) with
          | none => n
          | some headerEl =>
            if (headerEl.dataOffset : Int) + headerEl.dataSize ≤ (batchData.length : Int)
            then n else n + 1) = n := by
      rw [parseElementHeader_zero batchData hz]
      split <;> rfl
    rw [hstep]
    exact ih n

/-- With a batch buffer of zeroes, the sequential direct-target loop issues
exactly one read per batch. -/
theorem directFetchReadCount_zero (fileLen : Nat) (batches : List (List BlockTarget)) :
    directFetchReadCount (fun _ => 0) fileLen batches = batches.length := by
  unfold directFetchReadCount
  suffices h : ∀ n, batches.foldl
      (fun n batch =>
        match batch with
        | [] => n + 1
        | t0 :: _ =>
          let readStart := t0.absPos
          let readEnd := (batch.getLastD t0).absPos + BLOCK_SIZE_ESTIMATE
          let batchData := sliceBytes (fun _ => 0) fileLen readStart (readEnd - readStart)
          n + 1 + processBatchExtraReads batchData readStart batch) n = n + batches.length by
    simpa using h 0
  intro n
  induction batches generalizing n with
  | nil => simp
  | cons batch rest ih =>
    rw [List.foldl_cons]
    have hstep : (match batch with
        | [] => n + 1
        | t0 :: _ =>
          let readStart := t0.absPos
          let readEnd := (batch.getLastD t0).absPos + BLOCK_SIZE_ESTIMATE
          let batchData := sliceBytes (fun _ => 0) fileLen readStart (readEnd - readStart)
          n + 1 + processBatchExtraReads batchData readStart batch) = n + 1 := by
      cases batch with
      | nil => rfl
      | cons t0 ts =>
        simp only
        rw [processBatchExtraReads_zero _
          (fun i => byteAt_sliceBytes_zero _ _ _ i) t0.absPos (t0 :: ts)]
    rw [hstep, ih (n + 1)]
    simp [List.length_cons]
    omega

/-! ## C10 — empty `languages` list disables filtering -/

/-- C10: passing `languages: []` to `extractSubtitles` disables language
filtering entirely — every subtitle track survives, exactly as when
`languages` is omitted — because `options?.languages?.length` is falsy for an
empty array. -/
theorem emptyLanguages_disables_filter (tracks : List SubtitleTrackInfo) :
    filterByLanguages (some []) tracks = tracks ∧
    filterByLanguages none tracks = tracks := by
  exact ⟨rfl, rfl⟩

/-! ## C2 — the block-track-number read has no unknown-size sentinel -/

/-- C2 counterexample: on the one-byte buffer `[0xFF]` every value bit is
one; `readDataSize` returns the sentinel -1, but `readTrackNumber` returns
the masked value 127, so the track-number read does not behave like the
data-size read on the all-ones case. -/
theorem readTrackNumber_sentinel_cex :
    readDataSize [0xFF] 0 = some ⟨-1, 1⟩ ∧
    readTrackNumber [0xFF] 0 = some ⟨127, 1⟩ ∧
    (⟨127, 1⟩ : VintResult) ≠ ⟨-1, 1⟩ := by
  decide

/-- C2 amended: the track-number read uses the same width rule and masks the
marker bit exactly like the data-size read — whenever the data-size read
succeeds without the sentinel, the two agree — but its value is always
nonnegative: the all-ones pattern yields the masked value, never -1. -/
theorem readTrackNumber_matches_readDataSize (data : Bytes) (offset : Nat)
    (r t : VintResult)
    (hr : readDataSize data offset = some r)
    (ht : readTrackNumber data offset = some t) :
    t.length = r.length ∧ 0 ≤ t.value ∧ (r.value ≠ -1 → t = r) := by
  unfold readDataSize at hr
  unfold readTrackNumber at ht
  by_cases h1 : offset ≥ data.length
  · simp [h1] at hr
  · simp only [h1, if_false] at hr ht
    by_cases h2 : byteAt data offset = 0
    · simp [h2] at hr
    · simp only [h2, if_false] at hr ht
      by_cases h3 : offset + vintWidth (byteAt data offset) > data.length
      · simp [h3] at hr
      · simp only [h3, if_false] at hr ht
        set w := vintWidth (byteAt data offset) with hw
        set mask := (1 <<< (8 - w)) - 1 with hmask
        have hfst :
            ((List.range (w - 1)).foldl
              (fun (p : Nat × Bool) i =>
                (p.1 * 256 + byteAt data (offset + 1 + i),
                 p.2 && (byteAt data (offset + 1 + i) = 0xFF)))
              (byteAt data offset &&& mask, (byteAt data offset &&& mask) = mask)).1 =
            (List.range (w - 1)).foldl
              (fun v i => v * 256 + byteAt data (offset + 1 + i))
              (byteAt data offset &&& mask) := by
          exact foldl_pair_fst
            (fun v i => v * 256 + byteAt data (offset + 1 + i))
            (fun a i => a && decide (byteAt data (offset + 1 + i) = 255))
            (List.range (w - 1))
            (byteAt data offset &&& mask, decide (byteAt data offset &&& mask = mask))
        obtain rfl : (⟨((List.range (w - 1)).foldl
            (fun v i => v * 256 + byteAt data (offset + 1 + i))
            (byteAt data offset &&& mask) : Nat), w⟩ : VintResult) = t := by
          simpa using ht
        constructor
        · split at hr
          · cases hr; rfl
          · cases hr; rfl
        constructor
        · exact Int.ofNat_nonneg _
        · intro hne
          split at hr
          · cases hr; simp at hne
          · cases hr
            simp [hfst]


/-! ## C8 — font detection by MIME or file extension -/

/-- C8: an attached file is kept as a font iff its MIME type (compared
case-insensitively) is in the closed font-MIME set or the last extension of
its lowercased file name is `.ttf`/`.otf`/`.woff`/`.woff2`; in particular
`application/octet-stream` + `Arial.ttf` is kept via the extension fallback. -/
theorem fontDetection_matches_spec :
    (∀ mimeType fileName, isFontFile mimeType fileName = specIsFontFile mimeType fileName) ∧
    isFontFile "application/octet-stream" "Arial.ttf" = true := by
  constructor
  · intro m n
    simp only [isFontFile, specIsFontFile, lastExtMatch, specLastExtension]
    by_cases hm : FONT_MIME_TYPES.contains (toLowerCase m) = true
    · rw [if_pos hm, hm, Bool.true_or]
    · have hm' : FONT_MIME_TYPES.contains (toLowerCase m) = false := by
        simpa using hm
      rw [if_neg (by rw [hm']; decide), hm', Bool.false_or]
      by_cases hdot : (toLowerCase n).data.contains '.' = true
      · rw [if_pos hdot]
        have hlt : ((toLowerCase n).data.reverse.takeWhile (fun c => c ≠ '.')).length <
            (toLowerCase n).data.length := by
          have hmem : '.' ∈ (toLowerCase n).data := by
            simpa [List.contains] using hdot
          have := (takeWhile_length_lt_iff (fun c => decide (c ≠ '.'))
            (toLowerCase n).data.reverse).mpr
            ⟨'.', List.mem_reverse.mpr hmem, by simp⟩
          simpa [List.length_reverse] using this
        by_cases hnil : ((toLowerCase n).data.reverse.takeWhile (fun c => c ≠ '.')).length = 0
        · rw [if_neg (fun hcond => hcond.1 hnil)]
          rw [List.length_eq_zero.mp hnil]
          decide
        · rw [if_pos ⟨hnil, hlt⟩]
      · have hdotf : (toLowerCase n).data.contains '.' = false := by simpa using hdot
        have hdot' : '.' ∉ (toLowerCase n).data := by
          simpa [List.contains] using hdot
        have hc1 : ¬(((toLowerCase n).data.reverse.takeWhile (fun c => c ≠ '.')).length ≠ 0 ∧
            ((toLowerCase n).data.reverse.takeWhile (fun c => c ≠ '.')).length <
              (toLowerCase n).data.length) := by
          rintro ⟨-, hlt2⟩
          obtain ⟨c, hcmem, hcp⟩ := (takeWhile_length_lt_iff (fun c => decide (c ≠ '.'))
            (toLowerCase n).data.reverse).mp (by simpa [List.length_reverse] using hlt2)
          simp at hcp
          exact hdot' (hcp ▸ List.mem_reverse.mp hcmem)
        rw [if_neg hc1, if_neg (by rw [hdotf]; decide)]
  · decide

/-- C2 witness: both reads succeed on the one-byte VINT `0x81` and agree. -/
theorem readTrackNumber_matches_readDataSize_witness :
    readDataSize [0x81] 0 = some ⟨1, 1⟩ ∧
    readTrackNumber [0x81] 0 = some ⟨1, 1⟩ ∧
    (⟨1, 1⟩ : VintResult) = ⟨1, 1⟩ := by
  refine ⟨by decide, by decide, ?_⟩
  exact (readTrackNumber_matches_readDataSize [0x81] 0 ⟨1, 1⟩ ⟨1, 1⟩
    (by decide) (by decide)).2.2 (by decide)

/-! ## C1 — block timestamps can be negative; durations cannot -/

/-- C1 counterexample: a SimpleBlock on subtitle track 1 whose signed 16-bit
relative timestamp is -32768 inside a cluster with timestamp 0 (multiplier 1)
produces a block with `timestampMs = -32768 < 0`: the linear cluster scan
does not guarantee nonnegative timestamps. -/
theorem parseSimpleBlock_negative_timestamp_cex :
    parseSimpleBlock [0x81, 0x80, 0x00, 0x00] 0 1 [1] =
      some { trackNumber := 1, timestampMs := -32768, durationMs := none,
             data := [], additions := none } ∧
    (-32768 : ℚ) < 0 := by
  refine ⟨?_, by norm_num⟩
  rw [parseSimpleBlock_eq_some [0x81, 0x80, 0x00, 0x00] 0 1 [1] ⟨1, 1⟩ (by decide) (by decide),
    show signedRelTs [0x81, 0x80, 0x00, 0x00] (VintResult.mk 1 1).length = -32768 from by decide,
    show List.drop ((VintResult.mk 1 1).length + 3) [0x81, 0x80, 0x00, 0x00] = ([] : Bytes) from by decide,
    show (VintResult.mk 1 1).value = 1 from rfl]
  push_cast
  norm_num

/-- C1 amended: every block's `timestampMs` equals
`(clusterTimestamp + signedRelativeTimestamp) * (timestampScale / 1e6)`, and
it is nonnegative whenever `clusterTimestamp + signedRelativeTimestamp ≥ 0`
(the multiplier being nonnegative) — but not in general, as the
counterexample shows. In the targeted path the timestamp is the Cue time
verbatim. Durations, whenever present with a finite value, are nonnegative;
but a BlockDuration child whose declared size overruns the read buffer is
stored as a present NaN duration (`readUint` hits out-of-bounds indices), as
the last conjunct exhibits on a concrete BlockGroup, so `present → ≥ 0` does
not hold unconditionally. -/
theorem blockFetcher_timestamp_duration :
    (∀ (blockData : Bytes) (ct : Nat) (mult : ℚ) (tracks : List Int) (b : SubtitleBlock),
        parseSimpleBlock blockData ct mult tracks = some b →
        b.durationMs = none ∧
        ∃ tv, readTrackNumber blockData 0 = some tv ∧
          b.timestampMs = ((ct : ℚ) + (signedRelTs blockData tv.length : ℚ)) * mult ∧
          (0 ≤ mult → 0 ≤ (ct : Int) + signedRelTs blockData tv.length →
            0 ≤ b.timestampMs)) ∧
    (∀ (groupData : Bytes) (gsize ct : Nat) (mult : ℚ) (tracks : List Int) (b : SubtitleBlock),
        b ∈ processBlockGroup groupData gsize ct mult tracks →
        (∃ rel : Int, b.timestampMs = ((ct : ℚ) + (rel : ℚ)) * mult) ∧
        (0 ≤ mult → ∀ d, b.durationMs = some (some d) → 0 ≤ d)) ∧
    (∀ (elementData : Bytes) (el : EbmlElement) (cueTimeMs : ℚ)
        (tracks : List Int) (mult : ℚ) (b : SubtitleBlock),
        parseBlockElement elementData el cueTimeMs tracks mult = some b →
        b.timestampMs = cueTimeMs ∧
        (0 ≤ mult → ∀ d, b.durationMs = some (some d) → 0 ≤ d)) ∧
    ((processBlockGroup [0xA1, 0x84, 0x81, 0x00, 0x00, 0x00, 0x9B, 0x88, 0x01]
        9 0 1 [1]).map (fun b => b.durationMs) = [some none]) := by
  refine ⟨?_, ?_, ?_, ?_⟩
  · intro blockData ct mult tracks b h
    cases htv : readTrackNumber blockData 0 with
    | none => unfold parseSimpleBlock at h; rw [htv] at h; cases h
    | some tv =>
      by_cases hmem : tracks.contains tv.value
      · rw [parseSimpleBlock_eq_some blockData ct mult tracks tv htv hmem] at h
        simp only [Option.some.injEq] at h
        subst h
        refine ⟨rfl, tv, rfl, rfl, ?_⟩
        intro hm hsum
        have h0 : (0 : ℚ) ≤ (((ct : Int) + signedRelTs blockData tv.length : Int) : ℚ) := by
          exact_mod_cast hsum
        push_cast at h0
        exact mul_nonneg h0 hm
      · rw [parseSimpleBlock_eq_none blockData ct mult tracks tv htv
          (by simpa using hmem)] at h
        cases h
  · intro groupData gsize ct mult tracks b hb
    simp only [processBlockGroup] at hb
    split at hb
    · cases hb
    · split at hb
      · cases hb
      · rename_i blockElement blockDuration additions heqScan
        cases htv : readTrackNumber
            ((groupData.drop blockElement.dataOffset).take blockElement.dataSize.toNat) 0 with
        | none => rw [htv] at hb; cases hb
        | some tv =>
          rw [htv] at hb
          simp only [List.mem_singleton] at hb
          subst hb
          refine ⟨⟨_, rfl⟩, ?_⟩
          intro hm d hd
          cases blockDuration with
          | none => simp at hd
          | some dn =>
            cases dn with
            | none => simp at hd
            | some n =>
              simp only [Option.map_some', Option.some.injEq] at hd
              subst hd
              exact mul_nonneg (by positivity) hm
  · intro elementData el cueTimeMs tracks mult b h
    simp only [parseBlockElement] at h
    split at h
    · cases htv : readTrackNumber
          ((elementData.drop el.dataOffset).take el.dataSize.toNat) 0 with
      | none => rw [htv] at h; cases h
      | some tv =>
        rw [htv] at h
        split at h
        · cases h
        · split at h
          · cases h
          · injection h with h
            subst h
            exact ⟨rfl, fun _ d hd => by cases hd⟩
    · split at h
      · split at h
        · cases h
        · rename_i blockPayload trackNum blockDuration additions heqScan
          split at h
          · cases h
          · injection h with h
            subst h
            refine ⟨rfl, ?_⟩
            intro hm d hd
            cases blockDuration with
            | none => simp at hd
            | some dn =>
              cases dn with
              | none => simp at hd
              | some n =>
                simp only [Option.map_some', Option.some.injEq] at hd
                subst hd
                exact mul_nonneg (by positivity) hm
      · cases h
  · decide

/-- C1 witness: a block whose cluster timestamp plus relative timestamp is
nonnegative gets a nonnegative timestamp. -/
theorem blockFetcher_timestamp_duration_witness :
    parseSimpleBlock [0x81, 0x00, 0x05, 0x00] 3 1 [1] =
      some { trackNumber := 1, timestampMs := 8, durationMs := none,
             data := [], additions := none } ∧
    (0 : ℚ) ≤ (8 : ℚ) := by
  have htv : readTrackNumber [0x81, 0x00, 0x05, 0x00] 0 = some ⟨1, 1⟩ := by decide
  have hps : parseSimpleBlock [0x81, 0x00, 0x05, 0x00] 3 1 [1] =
      some { trackNumber := 1, timestampMs := 8, durationMs := none,
             data := [], additions := none } := by
    rw [parseSimpleBlock_eq_some [0x81, 0x00, 0x05, 0x00] 3 1 [1] ⟨1, 1⟩ htv (by decide),
      show signedRelTs [0x81, 0x00, 0x05, 0x00] (VintResult.mk 1 1).length = 5 from by decide,
      show List.drop ((VintResult.mk 1 1).length + 3) [0x81, 0x00, 0x05, 0x00] = ([] : Bytes) from by decide,
      show (VintResult.mk 1 1).value = 1 from rfl]
    push_cast
    norm_num
  refine ⟨hps, ?_⟩
  obtain ⟨-, tv, htv', hts, hpos⟩ :=
    blockFetcher_timestamp_duration.1 [0x81, 0x00, 0x05, 0x00] 3 1 [1] _ hps
  rw [htv] at htv'
  cases htv'
  exact hpos (by norm_num) (by decide)

/-! ## C5 — adaptive batch threshold and batching scenario -/

/-- C5: the batch threshold is `clamp(2·G, 32 KiB, 2 MiB)` for median gap
`G < 2 MiB` and 128 KiB otherwise; for direct targets with consecutive gaps
50, 50 and 189,900 bytes the threshold is 32 KiB, grouping yields the batches
{first three} and {fourth}, and the direct-target loop issues exactly two
reads (one per batch, no overflow follow-ups). -/
theorem adaptiveBatching_spec :
    (∀ targets : List BlockTarget, 2 ≤ targets.length →
        computeBatchThreshold targets = specBatchThreshold targets) ∧
    computeBatchThreshold
        [⟨10000, 0⟩, ⟨10050, 0⟩, ⟨10100, 0⟩, ⟨200000, 0⟩] = 32 * 1024 ∧
    groupIntoBatches [⟨10000, 0⟩, ⟨10050, 0⟩, ⟨10100, 0⟩, ⟨200000, 0⟩] (32 * 1024) =
      [[⟨10000, 0⟩, ⟨10050, 0⟩, ⟨10100, 0⟩], [⟨200000, 0⟩]] ∧
    (∀ fileLen, directFetchReadCount (fun _ => 0) fileLen
        (groupIntoBatches [⟨10000, 0⟩, ⟨10050, 0⟩, ⟨10100, 0⟩, ⟨200000, 0⟩]
          (computeBatchThreshold [⟨10000, 0⟩, ⟨10050, 0⟩, ⟨10100, 0⟩, ⟨200000, 0⟩])) = 2) := by
  refine ⟨?_, by decide, by decide, ?_⟩
  · intro targets h2
    simp only [computeBatchThreshold, specBatchThreshold, specMedianGap, clamp]
    rw [if_neg (by omega)]
    have hM : (MAX_BATCH_GAP : Int) = 2 * 1024 * 1024 := by norm_num [MAX_BATCH_GAP]
    have hR : (READ_AHEAD : Int) = 32 * 1024 := by norm_num [READ_AHEAD]
    rw [hM, hR]
    split_ifs with h
    · omega
    · rfl
  · intro fileLen
    rw [directFetchReadCount_zero]
    decide

/-- C5 witness: the scenario's four targets instantiate the threshold
formula. -/
theorem adaptiveBatching_spec_witness :
    2 ≤ ([⟨10000, 0⟩, ⟨10050, 0⟩, ⟨10100, 0⟩, ⟨200000, 0⟩] : List BlockTarget).length ∧
    computeBatchThreshold [⟨10000, 0⟩, ⟨10050, 0⟩, ⟨10100, 0⟩, ⟨200000, 0⟩] =
      specBatchThreshold [⟨10000, 0⟩, ⟨10050, 0⟩, ⟨10100, 0⟩, ⟨200000, 0⟩] :=
  ⟨by decide, adaptiveBatching_spec.1 _ (by decide)⟩

/-! ## C6 — when init raises the range-not-supported error -/

/-- C6 counterexample: a probe status that is neither 206 nor 200 (here 404)
with `allowFullDownload = true` does not raise the range-not-supported error —
`init` issues a second plain request and keeps its body — although the
claim's condition says any non-206/200 probe raises it. -/
theorem rangeNotSupported_cex :
    ((404 : Nat) ≠ 206 ∧ (404 : Nat) ≠ 200) ∧
    init (initialState "u" true) ⟨404, none, [0]⟩ ⟨200, none, [1, 2]⟩ =
      Except.ok { url := "u", allowFullDownload := true, fileSize := 2,
                  fullBuffer := some [1, 2], cacheOffset := -1, cacheBuffer := none,
                  bytesDownloaded := 2, requestCount := 2 } := by
  exact ⟨by decide, rfl⟩

/-- C6 amended: `init` raises the range-not-supported error (with the URL
verbatim) exactly when the probe status is not 206 and `allowFullDownload`
is false; in particular a 200 probe without the opt-in raises it, but a
non-206/200 probe with the opt-in does not. -/
theorem rangeNotSupported_iff (s : RangeReaderState) (probe fb : HttpResponse) :
    init s probe fb = Except.error (InitError.rangeNotSupported s.url) ↔
      (probe.status ≠ 206 ∧ s.allowFullDownload = false) := by
  simp only [init]
  by_cases h206 : probe.status = 206
  · rw [if_pos h206]
    simp [h206]
  · rw [if_neg h206]
    by_cases hallow : s.allowFullDownload = false
    · rw [if_pos hallow]
      simp [h206, hallow]
    · rw [if_neg hallow]
      constructor
      · intro h
        split at h <;> simp at h
      · rintro ⟨-, h2⟩
        exact absurd h2 hallow

/-! ## C7 — reader counters -/

/-- `(sliceBytes f L s l).length = min l (L - s)`. -/
theorem length_sliceBytes (f : Nat → Nat) (L s l : Nat) :
    (sliceBytes f L s l).length = min l (L - s) := by
  simp [sliceBytes]

/-- Unfolding one step of `runReads`. -/
theorem runReads_cons (server : Nat → Int → HttpResponse) (s : RangeReaderState)
    (op : Nat × Nat) (rest : List (Nat × Nat)) :
    runReads server s (op :: rest) =
      runReads server
        (match read server s op.1 op.2 with
          | Except.ok (st', _) => st'
          | Except.error _ => s) rest := rfl

/-- One successful `read` never decreases the counters, whatever the server
returns. -/
theorem read_counters_mono (server : Nat → Int → HttpResponse)
    (s : RangeReaderState) (offset length : Nat) (s' : RangeReaderState) (v : Bytes)
    (h : read server s offset length = Except.ok (s', v)) :
    s.bytesDownloaded ≤ s'.bytesDownloaded ∧ s.requestCount ≤ s'.requestCount := by
  unfold read at h
  split at h
  · injection h with h
    injection h with h1 h2
    subst h1
    exact ⟨le_refl _, le_refl _⟩
  · split at h
    · split at h
      · injection h with h
        injection h with h1 h2
        subst h1
        exact ⟨le_refl _, le_refl _⟩
      · cases h
    · split at h
      · cases h
      · injection h with h
        injection h with h1 h2
        subst h1
        exact ⟨Nat.le_add_right _ _, Nat.le_add_right _ _⟩

/-- Reads on a full-download reader return slices of the retained buffer and
leave the state untouched. -/
theorem read_fullBuffer (server : Nat → Int → HttpResponse)
    (s : RangeReaderState) (buf : Bytes) (hbuf : s.fullBuffer = some buf)
    (offset length : Nat) :
    read server s offset length = Except.ok (s, (buf.drop offset).take length) := by
  unfold read
  rw [hbuf]

/-- C7 amended: `bytesDownloaded` and `requestCount` are monotonically
non-decreasing over any read sequence against any server; after the
full-download fallback `bytesDownloaded` equals the file size and the reader
state (hence that equality) is preserved by every further read — but when
Range is supported `bytesDownloaded` is not bounded by the file size, as the
counterexample's overlapping cache misses show. -/
theorem readerCounters_spec :
    (∀ (server : Nat → Int → HttpResponse) (s : RangeReaderState) (ops : List (Nat × Nat)),
        s.bytesDownloaded ≤ (runReads server s ops).bytesDownloaded ∧
        s.requestCount ≤ (runReads server s ops).requestCount) ∧
    (∀ (s0 : RangeReaderState) (probe fb : HttpResponse) (s' : RangeReaderState),
        probe.status ≠ 206 → init s0 probe fb = Except.ok s' →
        s'.bytesDownloaded = s'.fileSize ∧ s'.fullBuffer.isSome = true) ∧
    (∀ (server : Nat → Int → HttpResponse) (s : RangeReaderState) (buf : Bytes)
        (ops : List (Nat × Nat)), s.fullBuffer = some buf →
        runReads server s ops = s) := by
  refine ⟨?_, ?_, ?_⟩
  · intro server s ops
    induction ops generalizing s with
    | nil => exact ⟨le_refl _, le_refl _⟩
    | cons op rest ih =>
      rw [runReads_cons]
      cases hread : read server s op.1 op.2 with
      | ok p =>
        rcases p with ⟨st', v⟩
        have hm := read_counters_mono server s op.1 op.2 st' v hread
        exact ⟨le_trans hm.1 (ih st').1, le_trans hm.2 (ih st').2⟩
      | error e =>
        exact ih s
  · intro s0 probe fb s' hstatus hinit
    simp only [init] at hinit
    rw [if_neg hstatus] at hinit
    split at hinit
    · cases hinit
    · split at hinit
      · injection hinit with h
        subst h
        exact ⟨rfl, rfl⟩
      · injection hinit with h
        subst h
        exact ⟨rfl, rfl⟩
  · intro server s buf ops hbuf
    induction ops with
    | nil => rfl
    | cons op rest ih =>
      rw [runReads_cons, read_fullBuffer server s buf hbuf op.1 op.2]
      exact ih

/-- C7 counterexample: against a fully honest server and a 10-byte file, the
206 probe (`bytes=0-262143`) primes the cache with the whole file and
`bytesDownloaded = fileSize = 10`; a subsequent `read(5, 8)` overruns the
cache line, misses, and re-downloads bytes 5..9, leaving
`bytesDownloaded = 15 > fileSize` even though Range is supported. -/
theorem bytesDownloaded_exceeds_fileSize_cex :
    init (initialState "u" false) (honestServer (fun i => i) 10 0 262143) ⟨200, none, []⟩ =
      Except.ok { url := "u", allowFullDownload := false, fileSize := 10,
                  fullBuffer := none, cacheOffset := 0,
                  cacheBuffer := some (sliceBytes (fun i => i) 10 0 262144),
                  bytesDownloaded := 10, requestCount := 1 } ∧
    (runReads (honestServer (fun i => i) 10)
        { url := "u", allowFullDownload := false, fileSize := 10,
          fullBuffer := none, cacheOffset := 0,
          cacheBuffer := some (sliceBytes (fun i => i) 10 0 262144),
          bytesDownloaded := 10, requestCount := 1 }
        [(5, 8)]).bytesDownloaded = 15 ∧
    (runReads (honestServer (fun i => i) 10)
        { url := "u", allowFullDownload := false, fileSize := 10,
          fullBuffer := none, cacheOffset := 0,
          cacheBuffer := some (sliceBytes (fun i => i) 10 0 262144),
          bytesDownloaded := 10, requestCount := 1 }
        [(5, 8)]).fileSize = 10 ∧
    (10 : Nat) < 15 := by
  exact ⟨rfl, rfl, rfl, by decide⟩

/-- C7 witness: a 404 probe with the full-download opt-in leaves
`bytesDownloaded = fileSize`, and counters never decrease over a read. -/
theorem readerCounters_spec_witness :
    ((404 : Nat) ≠ 206 ∧
      init (initialState "u" true) ⟨404, none, [0]⟩ ⟨200, none, [1, 2]⟩ =
        Except.ok { url := "u", allowFullDownload := true, fileSize := 2,
                    fullBuffer := some [1, 2], cacheOffset := -1, cacheBuffer := none,
                    bytesDownloaded := 2, requestCount := 2 }) ∧
    ({ url := "u", allowFullDownload := true, fileSize := 2,
       fullBuffer := some [1, 2], cacheOffset := -1, cacheBuffer := none,
       bytesDownloaded := 2, requestCount := 2 : RangeReaderState }.bytesDownloaded =
      { url := "u", allowFullDownload := true, fileSize := 2,
        fullBuffer := some [1, 2], cacheOffset := -1, cacheBuffer := none,
        bytesDownloaded := 2, requestCount := 2 : RangeReaderState }.fileSize) := by
  refine ⟨⟨by decide, rfl⟩, ?_⟩
  exact (readerCounters_spec.2.1 (initialState "u" true) ⟨404, none, [0]⟩ ⟨200, none, [1, 2]⟩
    _ (by decide) rfl).1

/-! ## C9 — determinism -/

/-- Entry `i` of a file slice. -/
theorem getElem?_sliceBytes (f : Nat → Nat) (L s l i : Nat) :
    (sliceBytes f L s l)[i]? = if i < min l (L - s) then some (f (s + i)) else none := by
  unfold sliceBytes
  rw [List.getElem?_map]
  by_cases h : i < min l (L - s)
  · rw [List.getElem?_range h, if_pos h]
    rfl
  · rw [if_neg h]
    have hnone : (List.range (min l (L - s)))[i]? = none := by
      rw [List.getElem?_eq_none]
      simpa using Nat.le_of_not_lt h
    rw [hnone]
    rfl

/-- Clipping the requested length to the file end does not change the slice. -/
theorem sliceBytes_min (f : Nat → Nat) (L s l : Nat) :
    sliceBytes f L s (min l (L - s)) = sliceBytes f L s l := by
  unfold sliceBytes
  rw [min_assoc, min_self]

/-- Against an honest server, the value a `read` returns is a function of the
file, file size, offset and length alone — the cache state does not influence
it — and cache validity plus the file size are preserved. -/
theorem read_honest_ok (file : Nat → Nat) (s : RangeReaderState)
    (hcv : CacheValid file s) (offset length : Nat) (s' : RangeReaderState) (v : Bytes)
    (h : read (honestServer file s.fileSize) s offset length = Except.ok (s', v)) :
    v = sliceBytes file s.fileSize offset length ∧ CacheValid file s' ∧
      s'.fileSize = s.fileSize := by
  obtain ⟨hfull, hcache⟩ := hcv
  unfold read at h
  split at h
  · rename_i buf heq
    rw [hfull] at heq
    cases heq
  · split at h
    · rename_i hhit
      split at h
      · rename_i cb hcb
        injection h with h
        injection h with h1 h2
        subst h1
        subst h2
        obtain ⟨hco, hcbeq⟩ := hcache cb hcb
        unfold cacheHit at hhit
        rw [hcb] at hhit
        simp only [Bool.and_eq_true, decide_eq_true_eq] at hhit
        obtain ⟨⟨h1, h2⟩, h3⟩ := hhit
        have hno : ((s.cacheOffset.toNat : Nat) : Int) = s.cacheOffset :=
          Int.toNat_of_nonneg hco
        have hlenb : cb.length ≤ s.fileSize - s.cacheOffset.toNat := by
          have := congrArg List.length hcbeq
          rw [length_sliceBytes] at this
          omega
        refine ⟨?_, ⟨hfull, hcache⟩, rfl⟩
        apply List.ext_getElem?
        intro i
        rw [List.getElem?_take, getElem?_sliceBytes]
        by_cases hi : i < length
        · rw [if_pos hi, List.getElem?_drop]
          conv_lhs => rw [hcbeq]
          rw [getElem?_sliceBytes]
          have hst : ((offset : Int) - s.cacheOffset).toNat = offset - s.cacheOffset.toNat := by
            omega
          rw [hst]
          rw [if_pos (by omega), if_pos (by omega)]
          congr 2
          omega
        · rw [if_neg hi, if_neg (by omega)]
      · cases h
    · split at h
      · cases h
      · injection h with h
        injection h with h1 h2
        subst h1
        subst h2
        constructor
        · apply List.ext_getElem?
          intro i
          simp only [honestServer]
          rw [List.getElem?_take, getElem?_sliceBytes, getElem?_sliceBytes, length_sliceBytes]
          by_cases hcond : i < min length
              ((readEndB s offset length + 1 - (offset : Int)).toNat ⊓ (s.fileSize - offset))
          · rw [if_pos hcond, if_pos (by omega), if_pos (by omega)]
          · have hneg : ¬ i < length ⊓ (s.fileSize - offset) := by
              intro hx
              apply hcond
              unfold readEndB readAheadLength READ_AHEAD
              omega
            rw [if_neg hcond, if_neg hneg]
        · refine ⟨⟨hfull, ?_⟩, rfl⟩
          intro cb hcb
          simp only [Option.some.injEq] at hcb
          subst hcb
          refine ⟨by positivity, ?_⟩
          simp only [honestServer, Int.toNat_natCast]
          rw [length_sliceBytes]
          exact (sliceBytes_min file s.fileSize offset _).symm

/-- Invariant of the worker pool under honest reads: the cache stays valid,
the file size is stable, and each worker's log is the pure slice image of the
prefix of its read script it has executed — independent of scheduling. -/
theorem pool_invariant (file : Nat → Nat) (tasks : List (List (Nat × Nat)))
    (r : RangeReaderState) (hcv : CacheValid file r) (t : PoolState)
    (hreach : PoolReaches file tasks (poolStart r tasks.length) t) :
    CacheValid file t.reader ∧ t.reader.fileSize = r.fileSize ∧
    t.pcs.length = tasks.length ∧ t.logs.length = tasks.length ∧
    (∀ w, w < tasks.length →
      t.pcs.getD w 0 ≤ (tasks.getD w []).length ∧
      t.logs.getD w [] = ((tasks.getD w []).take (t.pcs.getD w 0)).map
        (fun op => sliceBytes file r.fileSize op.1 op.2)) := by
  induction hreach with
  | refl =>
    refine ⟨hcv, rfl, by simp [poolStart], by simp [poolStart], ?_⟩
    intro w hw
    constructor
    · simp [poolStart, List.getD_eq_getElem?_getD, List.getElem?_replicate, hw]
    · simp [poolStart, List.getD_eq_getElem?_getD, List.getElem?_replicate, hw]
  | @tail b c hsteps hstep ih =>
    obtain ⟨ihcv, ihfs, ihpcs, ihlogs, ihw⟩ := ih
    cases hstep with
    | step w s op r' v hw hpc hlt hread =>
      obtain ⟨hv, hcv', hfs'⟩ := read_honest_ok file b.reader ihcv op.1 op.2 r' v hread
      rw [ihfs] at hv
      refine ⟨hcv', hfs'.trans ihfs, by simpa using ihpcs, by simpa using ihlogs, ?_⟩
      intro w' hw'
      by_cases hww : w = w'
      · subst hww
        have hwp : w < b.pcs.length := by omega
        have hwl : w < b.logs.length := by omega
        have hpcs : (b.pcs.set w (b.pcs.getD w 0 + 1)).getD w 0 = b.pcs.getD w 0 + 1 := by
          rw [List.getD_eq_getElem?_getD, List.getElem?_set, if_pos rfl, if_pos hwp]
          rfl
        have hlogs : (b.logs.set w (b.logs.getD w [] ++ [v])).getD w [] =
            b.logs.getD w [] ++ [v] := by
          rw [List.getD_eq_getElem?_getD, List.getElem?_set, if_pos rfl, if_pos hwl]
          rfl
        constructor
        · show (b.pcs.set w (b.pcs.getD w 0 + 1)).getD w 0 ≤ (tasks.getD w []).length
          rw [hpcs]
          omega
        · show (b.logs.set w (b.logs.getD w [] ++ [v])).getD w [] =
            ((tasks.getD w []).take ((b.pcs.set w (b.pcs.getD w 0 + 1)).getD w 0)).map
              (fun op => sliceBytes file r.fileSize op.1 op.2)
          rw [hlogs, hpcs]
          rw [List.take_succ, (ihw w hw').2, List.map_append]
          congr 1
          rw [List.getD_eq_getElem?_getD, List.getElem?_eq_getElem hlt] at hpc
          simp only [Option.getD_some] at hpc
          rw [List.getElem?_eq_getElem hlt, hpc]
          simp [hv]
      · have hpcs : (b.pcs.set w (b.pcs.getD w 0 + 1)).getD w' 0 = b.pcs.getD w' 0 := by
          rw [List.getD_eq_getElem?_getD, List.getElem?_set, if_neg hww,
            ← List.getD_eq_getElem?_getD]
        have hlogs : (b.logs.set w (b.logs.getD w [] ++ [v])).getD w' [] =
            b.logs.getD w' [] := by
          rw [List.getD_eq_getElem?_getD, List.getElem?_set, if_neg hww,
            ← List.getD_eq_getElem?_getD]
        constructor
        · show (b.pcs.set w (b.pcs.getD w 0 + 1)).getD w' 0 ≤ (tasks.getD w' []).length
          rw [hpcs]
          exact (ihw w' hw').1
        · show (b.logs.set w (b.logs.getD w [] ++ [v])).getD w' [] =
            ((tasks.getD w' []).take ((b.pcs.set w (b.pcs.getD w 0 + 1)).getD w' 0)).map
              (fun op => sliceBytes file r.fileSize op.1 op.2)
          rw [hlogs, hpcs]
          exact (ihw w' hw').2

/-- C9: the extraction pipeline is deterministic. Any complete worker-pool
execution over the shared reader — whatever the interleaving and however many
workers — produces the same per-worker value logs, namely the pure slice
image of each read script; and a read's returned value against an honest
server is a function of the file alone, independent of the reader's cache
state. Two runs over identical inputs therefore return identical outputs. -/
theorem extract_deterministic :
    (∀ (file : Nat → Nat) (tasks : List (List (Nat × Nat))) (r : RangeReaderState)
        (t1 t2 : PoolState),
        CacheValid file r →
        PoolReaches file tasks (poolStart r tasks.length) t1 →
        PoolReaches file tasks (poolStart r tasks.length) t2 →
        PoolDone tasks t1 → PoolDone tasks t2 → t1.logs = t2.logs) ∧
    (∀ (file : Nat → Nat) (s : RangeReaderState) (offset length : Nat)
        (s' : RangeReaderState) (v : Bytes),
        CacheValid file s →
        read (honestServer file s.fileSize) s offset length = Except.ok (s', v) →
        v = sliceBytes file s.fileSize offset length) := by
  constructor
  · intro file tasks r t1 t2 hcv h1 h2 hd1 hd2
    have key : ∀ t, PoolReaches file tasks (poolStart r tasks.length) t →
        PoolDone tasks t →
        t.logs = tasks.map (fun task =>
          task.map (fun op => sliceBytes file r.fileSize op.1 op.2)) := by
      intro t hr hd
      obtain ⟨-, -, -, hlen, hw⟩ := pool_invariant file tasks r hcv t hr
      apply List.ext_getElem?
      intro w
      by_cases hwlt : w < tasks.length
      · have hgd : t.logs.getD w [] = (tasks.getD w []).map
            (fun op => sliceBytes file r.fileSize op.1 op.2) := by
          rw [(hw w hwlt).2, hd w hwlt, List.take_length]
        calc t.logs[w]? = some (t.logs.getD w []) := by
              rw [List.getD_eq_getElem?_getD, List.getElem?_eq_getElem (by omega)]
              rfl
          _ = (tasks.map (fun task =>
                task.map (fun op => sliceBytes file r.fileSize op.1 op.2)))[w]? := by
              rw [hgd, List.getElem?_map, List.getElem?_eq_getElem hwlt]
              rw [List.getD_eq_getElem?_getD, List.getElem?_eq_getElem hwlt]
              rfl
      · rw [List.getElem?_eq_none (by omega), List.getElem?_eq_none (by simpa using by omega)]
    rw [key t1 h1 hd1, key t2 h2 hd2]
  · intro file s offset length s' v hcv h
    exact (read_honest_ok file s hcv offset length s' v h).1

/-- C9 witness: a one-worker pool over a 4-byte file executes its single
scripted read and logs the slice; two identical runs coincide. -/
theorem extract_deterministic_witness :
    CacheValid (fun i => i)
      { url := "u", allowFullDownload := false, fileSize := 4, fullBuffer := none,
        cacheOffset := -1, cacheBuffer := none, bytesDownloaded := 0, requestCount := 0 } ∧
    ([[[0, 1]]] : List (List Bytes)) = [[[0, 1]]] := by
  have hcv : CacheValid (fun i => i)
      { url := "u", allowFullDownload := false, fileSize := 4, fullBuffer := none,
        cacheOffset := -1, cacheBuffer := none, bytesDownloaded := 0, requestCount := 0 } :=
    ⟨rfl, fun cb h => nomatch h⟩
  have hstep : PoolStep (fun i => i) [[(0, 2)]]
      (poolStart { url := "u", allowFullDownload := false, fileSize := 4,
                   fullBuffer := none, cacheOffset := -1, cacheBuffer := none,
                   bytesDownloaded := 0, requestCount := 0 }
        ([[(0, 2)]] : List (List (Nat × Nat))).length)
      { reader := { url := "u", allowFullDownload := false, fileSize := 4,
                    fullBuffer := none, cacheOffset := 0, cacheBuffer := some [0, 1, 2, 3],
                    bytesDownloaded := 4, requestCount := 1 },
        pcs := [1], logs := [[[0, 1]]] } := by
    exact PoolStep.step 0 _ (0, 2) _ [0, 1] (by decide) rfl (by decide) rfl
  have hdone : PoolDone [[(0, 2)]]
      { reader := { url := "u", allowFullDownload := false, fileSize := 4,
                    fullBuffer := none, cacheOffset := 0, cacheBuffer := some [0, 1, 2, 3],
                    bytesDownloaded := 4, requestCount := 1 },
        pcs := [1], logs := [[[0, 1]]] } := by
    intro w hw
    have hw0 : w = 0 := Nat.lt_one_iff.mp hw
    subst hw0
    rfl
  exact ⟨hcv, extract_deterministic.1 (fun i => i) [[(0, 2)]] _ _ _ hcv
    (Relation.ReflTransGen.single hstep) (Relation.ReflTransGen.single hstep) hdone hdone⟩

/-! ## C3 — the Dialogue line does not round-trip through the payload parser -/

/-- C3 counterexample: for the payload `5,0,S,,0,0,0,,Hello, world, foo`
(ReadOrder 5), the Dialogue line `assembleAss` emits starts with the Layer
field, not ReadOrder; feeding its field portion back through
`parseAssBlockPayload` yields ReadOrder 0 (the Layer), Effect `0` (the
MarginV), and Text `,Hello, world, foo` — not the original tuple. -/
theorem assDialogue_roundtrip_cex :
    parseAssBlockPayload "5,0,S,,0,0,0,,Hello, world, foo" =
      some { readOrder := some 5, layer := "0", style := "S", name := "",
             marginL := "0", marginR := "0", marginV := "0", effect := "",
             dialogueText := "Hello, world, foo" } ∧
    dialogueLine
      { readOrder := some 5, layer := "0", style := "S", name := "",
        marginL := "0", marginR := "0", marginV := "0", effect := "",
        dialogueText := "Hello, world, foo" }
      (formatAssTimestamp 0) (formatAssTimestamp 0) "\n" =
      "Dialogue: 0,0:00:00.00,0:00:00.00,S,,0,0,0,,Hello, world, foo\n" ∧
    parseAssBlockPayload "0,0:00:00.00,0:00:00.00,S,,0,0,0,,Hello, world, foo" =
      some { readOrder := some 0, layer := "0:00:00.00", style := "0:00:00.00",
             name := "S", marginL := "", marginR := "0", marginV := "0",
             effect := "0", dialogueText := ",Hello, world, foo" } ∧
    some (0 : Int) ≠ some (5 : Int) ∧
    (",Hello, world, foo" : String) ≠ "Hello, world, foo" := by
  have hts : formatAssTimestamp 0 = "0:00:00.00" := by
    unfold formatAssTimestamp
    rw [show jsRound ((0 : ℚ) / 10) = 0 from by norm_num [jsRound]]
    decide
  refine ⟨by decide, ?_, by decide, by decide, by decide⟩
  rw [hts]
  decide

theorem digitChar_toNat (m : Nat) (h : m < 10) : (digitChar m).toNat = 48 + m := by
  interval_cases m <;> decide

theorem isDigitChar_digitChar (m : Nat) (h : m < 10) : isDigitChar (digitChar m) = true := by
  interval_cases m <;> decide

/-- A digit character is not a comma, a sign, or whitespace. -/
theorem digit_char_props (c : Char) (h : isDigitChar c = true) :
    c ≠ ',' ∧ c ≠ '-' ∧ c ≠ '+' ∧ isJsSpace c = false := by
  simp only [isDigitChar, Bool.and_eq_true, decide_eq_true_eq] at h
  refine ⟨?_, ?_, ?_, ?_⟩
  · rintro rfl
    exact absurd h.1 (by decide)
  · rintro rfl
    exact absurd h.1 (by decide)
  · rintro rfl
    exact absurd h.1 (by decide)
  · simp only [isJsSpace, decide_eq_false_iff_not]
    rintro (rfl | rfl | rfl | rfl | rfl | rfl) <;> exact absurd h.1 (by decide)

theorem digitsVal_append_digit (ds : List Char) (c : Char) :
    digitsVal (ds ++ [c]) = digitsVal ds * 10 + (c.toNat - 48) := by
  unfold digitsVal
  rw [List.foldl_append]
  rfl

/-- The decimal rendering evaluates back to the number, is nonempty, and
consists of digit characters. -/
theorem natDigitsGo_spec (fuel : Nat) : ∀ m, m < fuel →
    digitsVal (natDigitsGo fuel m) = m ∧ natDigitsGo fuel m ≠ [] ∧
    ∀ c ∈ natDigitsGo fuel m, isDigitChar c = true := by
  induction fuel with
  | zero => intro m hm; omega
  | succ fuel ih =>
    intro m hm
    unfold natDigitsGo
    by_cases h10 : m < 10
    · rw [if_pos h10]
      refine ⟨?_, by simp, ?_⟩
      · show digitsVal ([] ++ [digitChar m]) = m
        rw [digitsVal_append_digit, digitChar_toNat m h10,
          show digitsVal [] = 0 from rfl]
        omega
      · intro c hc
        simp only [List.mem_singleton] at hc
        subst hc
        exact isDigitChar_digitChar m h10
    · rw [if_neg h10]
      have hdiv : m / 10 < fuel := by omega
      obtain ⟨ih1, ih2, ih3⟩ := ih (m / 10) hdiv
      refine ⟨?_, by simp, ?_⟩
      · rw [digitsVal_append_digit, ih1, digitChar_toNat (m % 10) (Nat.mod_lt _ (by norm_num))]
        omega
      · intro c hc
        rcases List.mem_append.mp hc with hmem | hmem
        · exact ih3 c hmem
        · simp only [List.mem_singleton] at hmem
          subst hmem
          exact isDigitChar_digitChar _ (Nat.mod_lt _ (by norm_num))

theorem natDigits_spec (m : Nat) :
    digitsVal (natDigits m) = m ∧ natDigits m ≠ [] ∧
    ∀ c ∈ natDigits m, isDigitChar c = true :=
  natDigitsGo_spec (m + 1) m (by omega)

/-- `jsParseIntDigits` on an all-digit nonempty list gives its value. -/
theorem jsParseIntDigits_all_digits (ds : List Char) (hne : ds ≠ [])
    (hdig : ∀ c ∈ ds, isDigitChar c = true) :
    jsParseIntDigits ds = some ((digitsVal ds : Nat) : Int) := by
  unfold jsParseIntDigits
  rw [List.takeWhile_eq_self_iff.mpr hdig]
  cases ds with
  | nil => exact absurd rfl hne
  | cons d t => rfl

/-- `parseInt(String(n), 10) = n`: the canonical rendering parses back. -/
theorem jsParseInt_intToStr (n : Int) : jsParseInt (intToStr n) = some n := by
  unfold intToStr
  by_cases hneg : n < 0
  · rw [if_pos hneg]
    obtain ⟨hval, hne, hdig⟩ := natDigits_spec n.natAbs
    unfold jsParseInt
    show (match List.dropWhile isJsSpace ('-' :: natDigits n.natAbs) with
      | [] => none
      | c :: rest =>
        if c = '-' then (jsParseIntDigits rest).map (fun v => -v)
        else if c = '+' then jsParseIntDigits rest
        else jsParseIntDigits (c :: rest)) = some n
    rw [List.dropWhile_cons, if_neg (by decide)]
    show (if ('-' : Char) = '-' then (jsParseIntDigits (natDigits n.natAbs)).map (fun v => -v)
      else _) = some n
    rw [if_pos rfl, jsParseIntDigits_all_digits _ hne hdig, hval]
    simp only [Option.map_some', Option.some.injEq]
    omega
  · rw [if_neg hneg]
    obtain ⟨hval, hne, hdig⟩ := natDigits_spec n.toNat
    cases hds : natDigits n.toNat with
    | nil => exact absurd hds hne
    | cons d t =>
      have hd : isDigitChar d = true := hdig d (by rw [hds]; simp)
      obtain ⟨-, hd2, hd3, hd4⟩ := digit_char_props d hd
      unfold jsParseInt
      show (match List.dropWhile isJsSpace (d :: t) with
        | [] => none
        | c :: rest =>
          if c = '-' then (jsParseIntDigits rest).map (fun v => -v)
          else if c = '+' then jsParseIntDigits rest
          else jsParseIntDigits (c :: rest)) = some n
      rw [List.dropWhile_cons, if_neg (by simp [hd4])]
      show (if d = '-' then (jsParseIntDigits t).map (fun v => -v)
        else if d = '+' then jsParseIntDigits t
        else jsParseIntDigits (d :: t)) = some n
      rw [if_neg hd2, if_neg hd3,
        jsParseIntDigits_all_digits _ (by simp) (by rw [← hds]; exact hdig)]
      rw [← hds, hval]
      simp only [Option.some.injEq]
      omega

/-- The canonical integer rendering contains no comma. -/
theorem comma_not_mem_intToStr (n : Int) : ',' ∉ (intToStr n).data := by
  unfold intToStr
  by_cases hneg : n < 0
  · rw [if_pos hneg]
    intro hmem
    rcases List.mem_cons.mp hmem with h | h
    · exact absurd h.symm (by decide)
    · exact absurd (digit_char_props _ ((natDigits_spec n.natAbs).2.2 _ h)).1 (by simp)
  · rw [if_neg hneg]
    intro hmem
    exact absurd (digit_char_props _ ((natDigits_spec n.toNat).2.2 _ hmem)).1 (by simp)

/-- The part before the comma found by `splitAtComma` contains no comma. -/
theorem splitAtComma_no_comma : ∀ (cs b a : List Char),
    splitAtComma cs = some (b, a) → ',' ∉ b := by
  intro cs
  induction cs with
  | nil =>
    intro b a h
    exact absurd h (by simp [splitAtComma])
  | cons c t ih =>
    intro b a h
    unfold splitAtComma at h
    by_cases hc : c = ','
    · rw [if_pos hc] at h
      injection h with h
      simp only [Prod.mk.injEq] at h
      rw [← h.1]
      simp
    · rw [if_neg hc] at h
      cases hsp : splitAtComma t with
      | none =>
        rw [hsp] at h
        exact absurd h (by simp)
      | some q =>
        obtain ⟨b', a'⟩ := q
        rw [hsp] at h
        simp only [Option.map_some', Option.some.injEq, Prod.mk.injEq] at h
        rw [← h.1]
        intro hmem
        rcases List.mem_cons.mp hmem with hm | hm
        · exact hc hm.symm
        · exact ih b' a' hsp hm

/-- `splitAtComma` splits exactly at the first comma. -/
theorem splitAtComma_append (b a : List Char) (hb : ',' ∉ b) :
    splitAtComma (b ++ ',' :: a) = some (b, a) := by
  induction b with
  | nil => simp [splitAtComma]
  | cons c t ih =>
    show (if c = ',' then some ([], t ++ ',' :: a)
      else (splitAtComma (t ++ ',' :: a)).map (fun p => (c :: p.1, p.2))) = some (c :: t, a)
    rw [if_neg (fun hc => hb (by simp [hc])),
      ih (fun hm => hb (List.mem_cons.mpr (Or.inr hm)))]
    rfl

/-- Unfolding step for `splitFirstCommas` on a comma-free head part. -/
theorem splitFirstCommas_cons (n : Nat) (b a : List Char) (hb : ',' ∉ b) :
    splitFirstCommas (n + 1) (b ++ ',' :: a) =
      (splitFirstCommas n a).map (fun p => (b :: p.1, p.2)) := by
  show (match splitAtComma (b ++ ',' :: a) with
    | none => none
    | some (before, after) =>
      (splitFirstCommas n after).map (fun p => (before :: p.1, p.2))) =
    (splitFirstCommas n a).map (fun p => (b :: p.1, p.2))
  rw [splitAtComma_append b a hb]

/-- Every part produced by `splitFirstCommas` is comma-free. -/
theorem splitFirstCommas_parts : ∀ (n : Nat) (cs : List Char) (parts : List (List Char))
    (rest : List Char), splitFirstCommas n cs = some (parts, rest) →
    ∀ p ∈ parts, ',' ∉ p := by
  intro n
  induction n with
  | zero =>
    intro cs parts rest h
    unfold splitFirstCommas at h
    simp only [Option.some.injEq, Prod.mk.injEq] at h
    rw [← h.1]
    simp
  | succ n ih =>
    intro cs parts rest h
    have heq : splitFirstCommas (n + 1) cs = match splitAtComma cs with
      | none => none
      | some (before, after) =>
        (splitFirstCommas n after).map (fun p => (before :: p.1, p.2)) := rfl
    rw [heq] at h
    cases hsp : splitAtComma cs with
    | none =>
      rw [hsp] at h
      exact absurd h (by simp)
    | some q =>
      obtain ⟨before, after⟩ := q
      rw [hsp] at h
      have h' : (splitFirstCommas n after).map (fun p => (before :: p.1, p.2)) =
          some (parts, rest) := h
      cases hsf : splitFirstCommas n after with
      | none =>
        rw [hsf] at h'
        exact absurd h' (by simp)
      | some r =>
        obtain ⟨ps, rst⟩ := r
        rw [hsf] at h'
        simp only [Option.map_some', Option.some.injEq, Prod.mk.injEq] at h'
        have h := h'
        obtain ⟨hparts, hrest⟩ := h
        rw [← hparts]
        intro p hp
        rcases List.mem_cons.mp hp with rfl | hmem
        · exact splitAtComma_no_comma cs p after hsp
        · exact ih after ps rst hsf p hmem

/-- `splitFirstCommas` inverts `joinWithComma` on comma-free parts. -/
theorem splitFirstCommas_join : ∀ (parts : List (List Char)) (rest : List Char),
    (∀ p ∈ parts, ',' ∉ p) →
    splitFirstCommas parts.length (joinWithComma parts rest) = some (parts, rest) := by
  intro parts
  induction parts with
  | nil => intro rest h; rfl
  | cons p ps ih =>
    intro rest h
    show splitFirstCommas (ps.length + 1) (p ++ ',' :: joinWithComma ps rest) = _
    rw [splitFirstCommas_cons ps.length _ _ (h p (by simp)),
      ih rest (fun q hq => h q (List.mem_cons.mpr (Or.inr hq)))]
    rfl

set_option maxHeartbeats 1600000 in
/-- C3 (amended): `parseAssBlockPayload` inverts the canonical ReadOrder-first
serialization. For every payload that parses successfully, writing the fields
back as `ReadOrder,Layer,Style,Name,MarginL,MarginR,MarginV,Effect,Text` and
reparsing yields the identical field record, embedded commas in the Text
included. The literal claim fails because `assembleAss`'s Dialogue template
begins with Layer and drops ReadOrder entirely (see the counterexample). -/
theorem assPayload_roundtrip (s : String) (F : AssFields) (n : Int)
    (hparse : parseAssBlockPayload s = some F) (hro : F.readOrder = some n) :
    parseAssBlockPayload (serializeAssFields F n) = some F := by
  unfold parseAssBlockPayload at hparse
  split at hparse
  next p0 p1 p2 p3 p4 p5 p6 p7 rest heq =>
    have hF := Option.some.inj hparse
    have hfree : ∀ p ∈ [p1, p2, p3, p4, p5, p6, p7], ',' ∉ p := by
      intro p hp
      refine splitFirstCommas_parts 8 s.data [p0, p1, p2, p3, p4, p5, p6, p7] rest heq p ?_
      simp only [List.mem_cons, List.not_mem_nil, or_false] at hp ⊢
      tauto
    rw [← hF] at hro ⊢
    have hro' : jsParseInt (String.mk p0) = some n := hro
    have hfree' : ∀ p ∈ [(intToStr n).data, p1, p2, p3, p4, p5, p6, p7], ',' ∉ p := by
      intro p hp
      rcases List.mem_cons.mp hp with rfl | hmem
      · exact comma_not_mem_intToStr n
      · exact hfree p hmem
    have hsplit : splitFirstCommas 8
        (joinWithComma [(intToStr n).data, p1, p2, p3, p4, p5, p6, p7] rest) =
        some ([(intToStr n).data, p1, p2, p3, p4, p5, p6, p7], rest) :=
      splitFirstCommas_join _ rest hfree'
    have hdata : (serializeAssFields
        { readOrder := jsParseInt (String.mk p0), layer := String.mk p1,
          style := String.mk p2, name := String.mk p3, marginL := String.mk p4,
          marginR := String.mk p5, marginV := String.mk p6, effect := String.mk p7,
          dialogueText := String.mk rest } n).data =
        joinWithComma [(intToStr n).data, p1, p2, p3, p4, p5, p6, p7] rest := by
      show (intToStr n).data ++ [','] ++ p1 ++ [','] ++ p2 ++ [','] ++ p3 ++ [','] ++ p4
        ++ [','] ++ p5 ++ [','] ++ p6 ++ [','] ++ p7 ++ [','] ++ rest = _
      simp [joinWithComma, List.append_assoc]
    unfold parseAssBlockPayload
    rw [hdata, hsplit]
    show some
        ({ readOrder := jsParseInt (String.mk (intToStr n).data),
           layer := String.mk p1, style := String.mk p2, name := String.mk p3,
           marginL := String.mk p4, marginR := String.mk p5, marginV := String.mk p6,
           effect := String.mk p7, dialogueText := String.mk rest } : AssFields) =
      some
        ({ readOrder := jsParseInt (String.mk p0), layer := String.mk p1,
           style := String.mk p2, name := String.mk p3, marginL := String.mk p4,
           marginR := String.mk p5, marginV := String.mk p6, effect := String.mk p7,
           dialogueText := String.mk rest } : AssFields)
    rw [show String.mk (intToStr n).data = intToStr n from rfl, jsParseInt_intToStr n, hro']
  next =>
    exact absurd hparse (by simp)

/-- Concrete instance of the amended C3 round-trip, with a comma inside the
Text field. -/
theorem assPayload_roundtrip_witness :
    parseAssBlockPayload (serializeAssFields
      { readOrder := some (7 : Int), layer := "0", style := "Default", name := "",
        marginL := "0", marginR := "0", marginV := "0", effect := "",
        dialogueText := "Hi, there" } 7) =
    some
      { readOrder := some (7 : Int), layer := "0", style := "Default", name := "",
        marginL := "0", marginR := "0", marginV := "0", effect := "",
        dialogueText := "Hi, there" } :=
  assPayload_roundtrip "7,0,Default,,0,0,0,,Hi, there" _ 7 (by decide) (by decide)

/-- Inserting into a `Chain'`-ordered list by a total boolean comparator
keeps it `Chain'`-ordered. -/
theorem chain'_stableInsert {α : Type u} (le : α → α → Bool)
    (htot : ∀ a b, le a b = true ∨ le b a = true) (x : α) :
    ∀ l : List α, List.Chain' (fun a b => le a b = true) l →
      List.Chain' (fun a b => le a b = true) (stableInsert le x l) := by
  intro l
  induction l with
  | nil =>
    intro _
    simp [stableInsert]
  | cons y ys ih =>
    intro hl
    show List.Chain' (fun a b => le a b = true)
      (if le y x then y :: stableInsert le x ys else x :: y :: ys)
    by_cases hyx : le y x = true
    · rw [if_pos hyx]
      refine List.chain'_cons'.mpr ⟨?_, ih (List.chain'_cons'.mp hl).2⟩
      intro z hz
      cases ys with
      | nil =>
        simp only [stableInsert, List.head?_cons, Option.mem_def, Option.some.injEq] at hz
        rw [← hz]
        exact hyx
      | cons w ws =>
        by_cases hwx : le w x = true
        · rw [show stableInsert le x (w :: ws) = w :: stableInsert le x ws from by
            simp [stableInsert, hwx]] at hz
          simp only [List.head?_cons, Option.mem_def, Option.some.injEq] at hz
          rw [← hz]
          exact (List.chain'_cons.mp hl).1
        · rw [show stableInsert le x (w :: ws) = x :: w :: ws from by
            simp [stableInsert, hwx]] at hz
          simp only [List.head?_cons, Option.mem_def, Option.some.injEq] at hz
          rw [← hz]
          exact hyx
    · rw [if_neg hyx]
      have hxy : le x y = true := by
        rcases htot x y with h | h
        · exact h
        · exact absurd h hyx
      exact List.chain'_cons.mpr ⟨hxy, hl⟩

/-- The insertion-sort fold underlying `jsSortBy` produces a
`Chain'`-ordered list for any total boolean comparator. -/
theorem chain'_jsSortBy {α : Type u} (le : α → α → Bool)
    (htot : ∀ a b, le a b = true ∨ le b a = true) :
    ∀ (l acc : List α), List.Chain' (fun a b => le a b = true) acc →
      List.Chain' (fun a b => le a b = true)
        (l.foldl (fun acc a => stableInsert le a acc) acc) := by
  intro l
  induction l with
  | nil =>
    intro acc h
    exact h
  | cons a t ih =>
    intro acc h
    exact ih _ (chain'_stableInsert le htot a acc h)

/-- The ASS sort comparator is total (ties and NaN comparisons included). -/
theorem readOrderLe_total (a b : Option Int) :
    readOrderLe a b = true ∨ readOrderLe b a = true := by
  cases a with
  | none => cases b <;> simp [readOrderLe]
  | some x =>
    cases b with
    | none => simp [readOrderLe]
    | some y =>
      simp only [readOrderLe, decide_eq_true_eq]
      exact Int.le_total x y

/-- C4 counterexample: two payloads with the same ReadOrder 0 both survive
parsing, the sorted Dialogue list carries ReadOrders `[some 0, some 0]`, and
the strict comparison fails on that tie — consecutive Dialogue lines are not
strictly increasing in ReadOrder. -/
theorem assReadOrder_strict_cex :
    ((assSortedBlocks
        [{ trackNumber := 1, timestampMs := 0, durationMs := none,
           data := "0,0,Default,,0,0,0,,A".data.map Char.toNat, additions := none },
         { trackNumber := 1, timestampMs := 0, durationMs := none,
           data := "0,0,Default,,0,0,0,,B".data.map Char.toNat, additions := none }]).map
      (fun pb => pb.1.readOrder)) = [some 0, some 0] ∧
    readOrderLt (some 0) (some 0) = false := by
  constructor
  · decide
  · decide

/-- C4 (amended): `assembleSrt` lists entries in non-decreasing start
timestamp, as claimed; `assembleAss` lists Dialogue lines in non-decreasing —
not strictly increasing — ReadOrder, since the comparator
`a.readOrder - b.readOrder` does not separate ties (see the counterexample). -/
theorem assembler_sort_order (blocks : List SubtitleBlock) :
    List.Chain' (fun a b => a.timestampMs ≤ b.timestampMs) (srtSorted blocks) ∧
    List.Chain' (fun a b => readOrderLe a.1.readOrder b.1.readOrder = true)
      (assSortedBlocks blocks) := by
  constructor
  · have h := chain'_jsSortBy
      (fun a b : SubtitleBlock => decide (a.timestampMs ≤ b.timestampMs))
      (fun a b => by
        rcases le_total a.timestampMs b.timestampMs with h | h
        · exact Or.inl (decide_eq_true h)
        · exact Or.inr (decide_eq_true h))
      blocks [] (by simp)
    have h' : List.Chain' (fun a b : SubtitleBlock =>
        decide (a.timestampMs ≤ b.timestampMs) = true) (srtSorted blocks) := h
    exact List.Chain'.imp (fun a b hab => of_decide_eq_true hab) h'
  · exact chain'_jsSortBy (fun a b => readOrderLe a.1.readOrder b.1.readOrder)
      (fun a b => readOrderLe_total a.1.readOrder b.1.readOrder)
      (assParsedBlocks blocks) [] (by simp)

end MkvExtract
